import Mathlib

/-!
# Bigtable GC policy resource: policy generation and days/duration diff suppression

A shallow embedding of `resource_bigtable_gc_policy.go`:

* `resourceBigtableGCPolicyCustomizeDiffFunc` (lines 23-55),
* `generateBigtableGCPolicy` (lines 320-369),
* `getGCPolicyFromJSON` (lines 371-416),
* `getMaxAgeDuration` (lines 418-427),

together with the library values they work on: `time.Duration` and
`time.ParseDuration`, the `bigtable.GCPolicy` constructors, and the dynamic
values `encoding/json` decodes a document into.

Conventions.  A Go `int`, `int64` or `uint64` is a Lean `Int` or `Nat`, and every
operation that can leave the 64-bit range is reduced explicitly (`wrapInt64`,
`% 2 ^ 64`).  A Go `string` is a Lean `String`; the texts reaching this code are
valid UTF-8 (HCL attribute values and decoded JSON strings).  A Go function
returning `(T, error)` returns `Except String T`, the string being the error
message; a function that can also stop with a run-time panic returns `Result T`.
-/

namespace BigtableGCPolicy

/-! ## time.Duration -/

/-- Go `time.Duration`: a signed 64-bit count of nanoseconds. -/
abbrev Duration := Int

/-- Two-complement reduction of an integer to the `int64` range. -/
def wrapInt64 (x : Int) : Int := (x + 2 ^ 63) % 2 ^ 64 - 2 ^ 63

def Nanosecond : Duration := 1
def Microsecond : Duration := 1000 * Nanosecond
def Millisecond : Duration := 1000 * Microsecond
def Second : Duration := 1000 * Millisecond
def Minute : Duration := 60 * Second
def Hour : Duration := 60 * Minute

/-! ## float64

`time.ParseDuration` computes the fractional part of a number in `float64`, and
`encoding/json` decodes every JSON number into a `float64`.  A finite `float64` is
kept as sign, mantissa and binary exponent; the arithmetic below rounds the exact
result to 53 significant bits, ties to even.  The exponent range is not bounded:
infinities, NaN and subnormal numbers are not modelled (JSON decoding never
produces the first two, and in `ParseDuration` they can only arise where the
product is below one nanosecond and truncates to 0 either way). -/

/-- A finite `float64`: `(-1) ^ neg * mant * 2 ^ exp`. -/
structure Float64 where
  neg : Bool
  mant : Nat
  exp : Int
deriving DecidableEq, Repr

/-- The `float64` nearest to `n / d` (ties to even), with sign `neg`. -/
def roundFloat64 (neg : Bool) (n d : Nat) : Float64 :=
  if n = 0 then ⟨neg, 0, 0⟩
  else
    let e0 : Int := (Nat.log2 n : Int) - (Nat.log2 d : Int) - 52
    let num0 := if e0 < 0 then n * 2 ^ (-e0).toNat else n
    let den0 := if e0 < 0 then d else d * 2 ^ e0.toNat
    let small := decide (num0 < den0 * 2 ^ 52)
    let e := if small then e0 - 1 else e0
    let num := if small then num0 * 2 else num0
    let q := num / den0
    let r := num % den0
    if 2 * r > den0 ∨ (2 * r = den0 ∧ q % 2 = 1) then ⟨neg, q + 1, e⟩ else ⟨neg, q, e⟩

/-- Numerator of the absolute value as a fraction of naturals. -/
def Float64.num (x : Float64) : Nat :=
  if x.exp < 0 then x.mant else x.mant * 2 ^ x.exp.toNat

/-- Denominator of the absolute value as a fraction of naturals. -/
def Float64.den (x : Float64) : Nat :=
  if x.exp < 0 then 2 ^ (-x.exp).toNat else 1

/-- Conversion `float64(x)` of an unsigned integer. -/
def Float64.ofNat (x : Nat) : Float64 := roundFloat64 false x 1

/-- Product `x * y` in `float64`. -/
def Float64.mul (x y : Float64) : Float64 :=
  roundFloat64 (xor x.neg y.neg) (x.num * y.num) (x.den * y.den)

/-- Quotient `x / y` in `float64` (`y` not zero). -/
def Float64.div (x y : Float64) : Float64 :=
  roundFloat64 (xor x.neg y.neg) (x.num * y.den) (x.den * y.num)

/-- Conversion `uint64(x)` of a non-negative value below `2 ^ 64`: truncation. -/
def Float64.toUint64 (x : Float64) : Nat := x.num / x.den

/-- Conversion `int(x)`: truncation toward zero.  For a value outside the `int64`
range the Go specification leaves the result to the implementation; amd64 yields
the smallest `int64`, which is what is modelled. -/
def Float64.toInt (x : Float64) : Int :=
  let t : Int := if x.neg then -((x.num / x.den : Nat) : Int) else ((x.num / x.den : Nat) : Int)
  if -(2 ^ 63) ≤ t ∧ t < 2 ^ 63 then t else -(2 ^ 63)

/-! ## time.ParseDuration (Go standard library, `time/format.go`, Go 1.18 and later)

The text is read character by character where Go reads it byte by byte: the bytes
the parser tests for (`+`, `-`, `.`, the digits) are ASCII and never part of the
encoding of another character. -/

def isDigit (c : Char) : Bool := decide ('0' ≤ c) && decide (c ≤ '9')

def lowerhex (n : Nat) : Char := "0123456789abcdef".toList.getD n '0'

/-- The body of `time.quote`: a character below U+0020 or above U+007F is written
as `\x` and two hex digits for each byte of its UTF-8 encoding, a double quote or a
backslash is escaped. -/
def quoteChars : List Char → List Char
  | [] => []
  | c :: cs =>
    (if c.toNat ≥ 128 ∨ c < ' ' then
      (String.utf8EncodeChar c).flatMap fun b =>
        ['\\', 'x', lowerhex (b.toNat / 16), lowerhex (b.toNat % 16)]
    else if c = '"' ∨ c = '\\' then ['\\', c]
    else [c]) ++ quoteChars cs

/-- Go `time.quote`. -/
def quote (s : String) : String := String.mk ('"' :: quoteChars s.toList ++ ['"'])

/-- Go `time.leadingInt`: consumes the leading `[0-9]*`; `none` is `errLeadingInt`
(the value passes `1 << 63`).  The second argument is the value read so far. -/
def leadingInt : List Char → Nat → Option (Nat × List Char)
  | [], x => some (x, [])
  | c :: cs, x =>
    if c < '0' ∨ c > '9' then some (x, c :: cs)
    else if x > 2 ^ 63 / 10 then none
    else
      let x1 := (x * 10 + c.toNat - 48) % 2 ^ 64
      if x1 > 2 ^ 63 then none else leadingInt cs x1

/-- Go `time.leadingFraction`: consumes the leading `[0-9]*` after the point and
returns the digits read as an integer, the power of ten they are to be divided by,
and the rest; digits that would overflow the integer are skipped. -/
def leadingFraction : List Char → Nat → Float64 → Bool → Nat × Float64 × List Char
  | [], x, scale, _ => (x, scale, [])
  | c :: cs, x, scale, overflow =>
    if c < '0' ∨ c > '9' then (x, scale, c :: cs)
    else if overflow then leadingFraction cs x scale overflow
    else if x > (2 ^ 63 - 1) / 10 then leadingFraction cs x scale true
    else
      let y := (x * 10 + c.toNat - 48) % 2 ^ 64
      if y > 2 ^ 63 then leadingFraction cs x scale true
      else leadingFraction cs y (scale.mul (Float64.ofNat 10)) overflow

/-- Go `time.unitMap`, in nanoseconds. -/
def unitMap (u : String) : Option Nat :=
  if u = "ns" then some 1
  else if u = "us" then some 1000
  else if u = "µs" then some 1000
  else if u = "μs" then some 1000
  else if u = "ms" then some 1000000
  else if u = "s" then some 1000000000
  else if u = "m" then some 60000000000
  else if u = "h" then some 3600000000000
  else none

/-- Length of the unit: the characters up to the next `.` or digit. -/
def unitLen : List Char → Nat
  | [] => 0
  | c :: cs => if c = '.' ∨ isDigit c then 0 else unitLen cs + 1

/-- The step `Consume (\.[0-9]*)?` of `time.ParseDuration`: the fraction digits `f`,
their `scale`, the rest of the text and `post`, whether a digit was consumed after
the point. -/
def fractionPart (s1 : List Char) : Nat × Float64 × List Char × Bool :=
  match s1 with
  | '.' :: s2 =>
    let r := leadingFraction s2 0 (Float64.ofNat 1) false
    (r.1, r.2.1, r.2.2, s2.length != r.2.2.length)
  | _ => (0, Float64.ofNat 1, s1, false)

/-- One round of the loop `for s != ""` of `time.ParseDuration`, on the text
`c :: cs` that is left: it reads one number and its unit and returns the value of
the two in nanoseconds (a `uint64`) and the rest of the text. -/
def parseDurationRound (orig : String) (c : Char) (cs : List Char) :
    Except String (Nat × List Char) :=
  if !(c = '.' || isDigit c) then .error ("time: invalid duration " ++ quote orig)
  else
    match leadingInt (c :: cs) 0 with
    | none => .error ("time: invalid duration " ++ quote orig)
    | some (v, s1) =>
      let pre := (c :: cs).length != s1.length
      let frac := fractionPart s1
      let f := frac.1
      let scale := frac.2.1
      let s3 := frac.2.2.1
      let post := frac.2.2.2
      if !pre && !post then .error ("time: invalid duration " ++ quote orig)
      else
        let i := unitLen s3
        if i = 0 then .error ("time: missing unit in duration " ++ quote orig)
        else
          let u := String.mk (s3.take i)
          match unitMap u with
          | none =>
            .error ("time: unknown unit " ++ quote u ++ " in duration " ++ quote orig)
          | some unit =>
            if v > 2 ^ 63 / unit then .error ("time: invalid duration " ++ quote orig)
            else
              let v1 := (v * unit) % 2 ^ 64
              let v2 :=
                if f > 0 then
                  (v1 + ((Float64.ofNat f).mul ((Float64.ofNat unit).div scale)).toUint64)
                    % 2 ^ 64
                else v1
              if f > 0 ∧ v2 > 2 ^ 63 then .error ("time: invalid duration " ++ quote orig)
              else .ok (v2, s3.drop i)

/-- The loop `for s != ""` of `time.ParseDuration`: each round adds the value it
read to `d` (a `uint64`).  Every round consumes at least one character, so the
first argument, a bound on the number of rounds, is not exhausted when it starts
at the length of the text. -/
def parseDurationLoop (orig : String) : Nat → List Char → Nat → Except String Nat
  | _, [], d => .ok d
  | 0, _ :: _, _ => .error ("time: invalid duration " ++ quote orig)
  | fuel + 1, c :: cs, d =>
    match parseDurationRound orig c cs with
    | .error err => .error err
    | .ok (v, rest) =>
      let d1 := (d + v) % 2 ^ 64
      if d1 > 2 ^ 63 then .error ("time: invalid duration " ++ quote orig)
      else parseDurationLoop orig fuel rest d1

/-- Go `time.ParseDuration`: `[-+]?([0-9]*(\.[0-9]*)?[a-z]+)+`. -/
def ParseDuration (s : String) : Except String Duration :=
  let neg := decide (s.toList.head? = some '-')
  let s1 := match s.toList with
    | c :: cs => if c = '-' ∨ c = '+' then cs else c :: cs
    | [] => []
  if s1 = ['0'] then .ok 0
  else if s1 = [] then .error ("time: invalid duration " ++ quote s)
  else
    match parseDurationLoop s s1.length s1 0 with
    | .error e => .error e
    | .ok d =>
      if neg then .ok (wrapInt64 (-(wrapInt64 d)))
      else if d > 2 ^ 63 - 1 then .error ("time: invalid duration " ++ quote s)
      else .ok d

/-! ## bigtable.GCPolicy (`cloud.google.com/go/bigtable`, `gc.go`) -/

/-- The values of the interface `bigtable.GCPolicy`: `noGCPolicy{}`,
`maxAgePolicy(d)`, `maxVersionsPolicy(n)`, `unionPolicy{sub}` and
`intersectionPolicy{sub}`. -/
inductive GCPolicy where
  | NoGcPolicy
  | MaxAgePolicy (d : Duration)
  | MaxVersionsPolicy (n : Int)
  | UnionPolicy (sub : List GCPolicy)
  | IntersectionPolicy (sub : List GCPolicy)

/-- The comparison `n == bigtable.NoGcPolicy()` of two interface values: true
exactly when the dynamic type of `n` is `noGCPolicy`. -/
def GCPolicy.isNoGcPolicy : GCPolicy → Bool
  | .NoGcPolicy => true
  | _ => false

/-! ## Decoded JSON -/

mutual
/-- A value of type `interface{}` as `encoding/json` decodes it: `nil` (JSON null,
and what indexing a map at a missing key gives), `bool`, `float64`, `string`,
`[]interface{}` or `map[string]interface{}`. -/
inductive Interface where
  | nil
  | bool (b : Bool)
  | float64 (x : Float64)
  | string (s : String)
  | slice (xs : List Interface)
  | map (m : JSONMap)
/-- A `map[string]interface{}`, given by what indexing yields at every key: `nil`
at a key that is not in the map. -/
inductive JSONMap where
  | mk (index : String → Interface)
end

/-- The index expression `p[key]`. -/
def JSONMap.index : JSONMap → String → Interface
  | .mk f => f

/-- The map holding the listed entries (the first entry of a key counts). -/
def JSONMap.ofList (kvs : List (String × Interface)) : JSONMap :=
  .mk fun k => ((kvs.find? fun kv => kv.1 == k).map Prod.snd).getD .nil

def Interface.isNil : Interface → Bool
  | .nil => true
  | _ => false

/-- The comparison `v == s` of an interface value with a string. -/
def Interface.eqString : Interface → String → Bool
  | .string t, s => t == s
  | _, _ => false

/-! ## Results -/

/-- Outcome of a call returning `(T, error)` that may also panic. -/
inductive Result (α : Type) where
  | ok (v : α)
  | err (msg : String)
  | panic (msg : String)

/-! ## The resource's inputs -/

def GCPolicyModeIntersection : String := "INTERSECTION"
def GCPolicyModeUnion : String := "UNION"

/-- Go `strings.ToLower` on ASCII text (the two mode constants are its only
arguments): `A`-`Z` become `a`-`z`. -/
def ToLower (s : String) : String := String.mk (s.toList.map Char.toLower)

/-- One `max_age` block of the schema (lines 127-156): `days` is a `TypeInt`,
`duration` a `TypeString`; an attribute that is not set reads as its zero value. -/
structure MaxAge where
  days : Int
  duration : String
deriving DecidableEq, Repr

/-- One `max_version` block of the schema (lines 158-174). -/
structure MaxVersion where
  number : Int
deriving DecidableEq, Repr

/-- What `generateBigtableGCPolicy` reads of `*schema.ResourceData`: the
attributes `mode`, `max_age`, `max_version` and `gc_rules`. -/
structure ResourceData where
  mode : String
  max_age : List MaxAge
  max_version : List MaxVersion
  gc_rules : String
deriving DecidableEq, Repr

/-- What `resourceBigtableGCPolicyCustomizeDiffFunc` reads and writes of a
`TerraformResourceDiff`: the count `max_age.#`, the old and new values of
`max_age.0.days` and `max_age.0.duration`, the error `Clear` returns for a key
(`none`: it succeeds) and the keys cleared so far. -/
structure TerraformResourceDiff where
  maxAgeCount : Int
  oldDays : Int
  newDays : Int
  oldDuration : String
  newDuration : String
  clearError : String → Option String
  cleared : List String

/-- The call `diff.Clear(key)`: the error it returns, and the diff after it. -/
def TerraformResourceDiff.Clear (diff : TerraformResourceDiff) (key : String) :
    Option String × TerraformResourceDiff :=
  match diff.clearError key with
  | some err => (some err, diff)
  | none => (none, { diff with cleared := diff.cleared ++ [key] })

/-! ## The functions of the source file -/

/-- Lines 23-55.  Returns the error (`none` for `nil`) and the diff as the calls
to `Clear` left it. -/
def resourceBigtableGCPolicyCustomizeDiffFunc (diff : TerraformResourceDiff) :
    Option String × TerraformResourceDiff :=
  let count := diff.maxAgeCount
  if count < 1 then (none, diff)
  else
    let oldDays := diff.oldDays
    let oldDuration := diff.oldDuration
    let newDuration := diff.newDuration
    if oldDuration == "" && newDuration != "" then
      match ParseDuration newDuration with
      | .error err => (some err, diff)
      | .ok dO =>
        let dn := wrapInt64 (Hour * 24 * oldDays)
        if dO = dn then
          match diff.Clear "max_age.0.days" with
          | (some err, diff1) => (some err, diff1)
          | (none, diff1) =>
            match diff1.Clear "max_age.0.duration" with
            | (some err, diff2) => (some err, diff2)
            | (none, diff2) => (none, diff2)
        else (none, diff)
    else (none, diff)

/-- Lines 418-427. -/
def getMaxAgeDuration (values : MaxAge) : Except String Duration :=
  let d := values.duration
  if d != "" then ParseDuration d
  else
    let days := values.days
    .ok (wrapInt64 (Hour * 24 * days))

/-- Lines 379-386: the `max_age` step of the loop body. -/
def appendMaxAge (r : JSONMap) (policies : List GCPolicy) : Result (List GCPolicy) :=
  match r.index "max_age" with
  | .nil => .ok policies
  | .string maxAge =>
    match ParseDuration maxAge with
    | .error _ => .err ("invalid duration string: " ++ maxAge)
    | .ok duration => .ok (policies ++ [.MaxAgePolicy duration])
  | _ => .panic "interface conversion: interface {} is not string"

/-- Lines 388-391: the `max_version` step of the loop body. -/
def appendMaxVersion (r : JSONMap) (policies : List GCPolicy) : Result (List GCPolicy) :=
  match r.index "max_version" with
  | .nil => .ok policies
  | .float64 version => .ok (policies ++ [.MaxVersionsPolicy version.toInt])
  | _ => .panic "interface conversion: interface {} is not float64"

mutual
/-- Lines 371-416. -/
def getGCPolicyFromJSON : JSONMap → Result GCPolicy
  | .mk p =>
    if (p "rules").isNil then .ok .NoGcPolicy
    else
      match rangeRulesOf (p "rules") with
      | .ok policies =>
        if (p "mode").eqString (ToLower GCPolicyModeUnion) then .ok (.UnionPolicy policies)
        else if (p "mode").eqString (ToLower GCPolicyModeIntersection) then
          .ok (.IntersectionPolicy policies)
        else
          match policies with
          | [] => .ok .NoGcPolicy
          | first :: _ => .ok first
      | .err e => .err e
      | .panic msg => .panic msg
/-- Line 377: the type assertion `p["rules"].([]interface{})` and the loop over
the slice, starting from no policies. -/
def rangeRulesOf : Interface → Result (List GCPolicy)
  | .slice rules => rangeRules rules []
  | _ => .panic "interface conversion: interface {} is not []interface {}"
/-- Lines 377-403: the loop over the elements of `rules`, from the element
reached and the `policies` collected so far. -/
def rangeRules : List Interface → List GCPolicy → Result (List GCPolicy)
  | [], policies => .ok policies
  | raw :: rest, policies =>
    match raw with
    | .map r =>
      match appendMaxAge r policies with
      | .ok policies1 =>
        match appendMaxVersion r policies1 with
        | .ok policies2 =>
          if (r.index "mode").isNil then rangeRules rest policies2
          else
            match getGCPolicyFromJSON r with
            | .ok n =>
              -- Don't combine NoGcPolicy with other types of policy
              if n.isNoGcPolicy then rangeRules rest policies2
              else rangeRules rest (policies2 ++ [n])
            | .err e => .err e
            | .panic msg => .panic msg
        | .err e => .err e
        | .panic msg => .panic msg
      | .err e => .err e
      | .panic msg => .panic msg
    | _ => .panic "interface conversion: interface {} is not map[string]interface {}"
end

/-- Lines 320-369.  `unmarshal` is `json.Unmarshal` into a
`map[string]interface{}` (package `encoding/json`): the decoded map, or the
message of the error. -/
def generateBigtableGCPolicy (unmarshal : String → Except String JSONMap)
    (d : ResourceData) : Result GCPolicy :=
  let mode := d.mode
  let aok := !d.max_age.isEmpty
  let vok := !d.max_version.isEmpty
  let gcRules := d.gc_rules
  if !aok && !vok && gcRules == "" then .ok .NoGcPolicy
  else if mode == "" && aok && vok then
    .err "if multiple policies are set, mode can't be empty"
  else if gcRules != "" then
    match unmarshal gcRules with
    | .error err => .err err
    | .ok parsedRules => getGCPolicyFromJSON parsedRules
  else
    let afterAge : Result (List GCPolicy) :=
      if aok then
        match d.max_age with
        | [] => .panic "index out of range [0] with length 0"
        | ma :: _ =>
          match getMaxAgeDuration ma with
          | .error err => .err err
          | .ok dur => .ok [.MaxAgePolicy dur]
      else .ok []
    match afterAge with
    | .err err => .err err
    | .panic msg => .panic msg
    | .ok policies1 =>
      let afterVersion : Result (List GCPolicy) :=
        if vok then
          match d.max_version with
          | [] => .panic "index out of range [0] with length 0"
          | mv :: _ => .ok (policies1 ++ [.MaxVersionsPolicy mv.number])
        else .ok policies1
      match afterVersion with
      | .err err => .err err
      | .panic msg => .panic msg
      | .ok policies =>
        if mode = GCPolicyModeUnion then .ok (.UnionPolicy policies)
        else if mode = GCPolicyModeIntersection then .ok (.IntersectionPolicy policies)
        else
          match policies with
          | [] => .panic "index out of range [0] with length 0"
          | first :: _ => .ok first

/-! ## Vocabulary of the statements

The definitions below are not part of the program: they name what the statements
about it speak of. -/

/-- The message of the error of line 332. -/
def modeEmptyError : String := "if multiple policies are set, mode can't be empty"

/-- Both `max_age` and `max_version` are present and `mode` is empty. -/
def ResourceData.ambiguous (d : ResourceData) : Prop :=
  d.mode = "" ∧ d.max_age ≠ [] ∧ d.max_version ≠ []

instance (d : ResourceData) : Decidable d.ambiguous := by
  unfold ResourceData.ambiguous
  infer_instance

/-- Parsing `gc_rules` and lowering the document with `getGCPolicyFromJSON`. -/
def lowerText (unmarshal : String → Except String JSONMap) (gcRules : String) :
    Result GCPolicy :=
  match unmarshal gcRules with
  | .error err => .err err
  | .ok parsedRules => getGCPolicyFromJSON parsedRules

/-- A stand-in for `json.Unmarshal` that knows one text: it decodes `text` to `m`
and reports a syntax error on every other text. -/
def unmarshalOnly (text : String) (m : JSONMap) : String → Except String JSONMap :=
  fun s => if s = text then .ok m else .error "invalid character"

/-- The child list of the structured form: the age leaf of the first `max_age`
block when there is one and its threshold resolves, then the version leaf of the
first `max_version` block when there is one. -/
def structuredChildren (d : ResourceData) : List GCPolicy :=
  (match d.max_age with
    | [] => []
    | ma :: _ =>
      match getMaxAgeDuration ma with
      | .ok dur => [GCPolicy.MaxAgePolicy dur]
      | .error _ => [])
  ++ (match d.max_version with
    | [] => []
    | mv :: _ => [GCPolicy.MaxVersionsPolicy mv.number])

/-- A policy that is a single rule, not a combinator. -/
def GCPolicy.isLeaf : GCPolicy → Bool
  | .MaxAgePolicy _ => true
  | .MaxVersionsPolicy _ => true
  | _ => false

/-- An error message of the `time` package: every error `time.ParseDuration`
returns starts with `time: `. -/
def TimeError (e : String) : Prop := ∃ t, e = "time: " ++ t

/-- The diff after `Clear` has been called on `max_age.0.days` and then on
`max_age.0.duration`. -/
def TerraformResourceDiff.bothCleared (diff : TerraformResourceDiff) : TerraformResourceDiff :=
  { diff with cleared := diff.cleared ++ ["max_age.0.days"] ++ ["max_age.0.duration"] }

/-- The precondition on the calls to `Clear`: neither of the two fails. -/
def TerraformResourceDiff.clearSucceeds (diff : TerraformResourceDiff) : Prop :=
  diff.clearError "max_age.0.days" = none ∧ diff.clearError "max_age.0.duration" = none

/-! ### Rule documents -/

/-- An optional value of the given dynamic type: `nil` or a string. -/
def Interface.isOptString : Interface → Bool
  | .nil => true
  | .string _ => true
  | _ => false

/-- An optional value of the given dynamic type: `nil` or a number. -/
def Interface.isOptNumber : Interface → Bool
  | .nil => true
  | .float64 _ => true
  | _ => false

mutual
/-- A rule document, as the data model has it: an object whose `max_age`, when
present, is a string, whose `max_version`, when present, is a number, and whose
`rules`, when present, is a list of rule documents (`mode` is not constrained). -/
def JSONMap.isRuleDocument : JSONMap → Bool
  | .mk p =>
    (p "max_age").isOptString && (p "max_version").isOptNumber
      && Interface.isOptRuleList (p "rules")
/-- The value is `nil` or a list of rule documents. -/
def Interface.isOptRuleList : Interface → Bool
  | .nil => true
  | .slice xs => allRuleDocuments xs
  | _ => false
/-- Every element of the list is a rule document. -/
def allRuleDocuments : List Interface → Bool
  | [] => true
  | x :: xs => Interface.isRuleDocument x && allRuleDocuments xs
/-- The value is an object that is a rule document. -/
def Interface.isRuleDocument : Interface → Bool
  | .map m => m.isRuleDocument
  | _ => false
end

/-- The age leaf an element contributes: `AgeLeaf` of the parsed `max_age` when
the element carries a `max_age` text that parses. -/
def ageLeafOf (r : JSONMap) : List GCPolicy :=
  match r.index "max_age" with
  | .string maxAge =>
    match ParseDuration maxAge with
    | .ok duration => [GCPolicy.MaxAgePolicy duration]
    | .error _ => []
  | _ => []

/-- The version leaf an element contributes: `VersionLeaf` of `max_version`
(converted to `int`) when the element carries a `max_version` number. -/
def versionLeafOf (r : JSONMap) : List GCPolicy :=
  match r.index "max_version" with
  | .float64 version => [GCPolicy.MaxVersionsPolicy version.toInt]
  | _ => []

/-- The nested policy an element contributes: the lowering of the element as a
document when it carries `mode` and that lowering is a policy other than
`NoGcPolicy`. -/
def nestedPolicyOf (r : JSONMap) : List GCPolicy :=
  if (r.index "mode").isNil then []
  else
    match getGCPolicyFromJSON r with
    | .ok n => if n.isNoGcPolicy then [] else [n]
    | _ => []

/-- The children one element of `rules` contributes: its age leaf, then its
version leaf, then its nested policy. -/
def childrenOfRule : Interface → List GCPolicy
  | .map r => ageLeafOf r ++ versionLeafOf r ++ nestedPolicyOf r
  | _ => []

/-- The children collected from a rules list: the in-order concatenation of what
its elements contribute. -/
def childrenOfRules (rules : List Interface) : List GCPolicy :=
  rules.flatMap childrenOfRule

mutual
/-- The `max_age` texts the lowering of a document visits, in the order of the
traversal: for each element of `rules` its own `max_age`, then, if the element
carries `mode`, those of the element as a nested document. -/
def visitedMaxAges : JSONMap → List String
  | .mk p => visitedInRules (p "rules")
/-- The texts visited in the value of `rules`. -/
def visitedInRules : Interface → List String
  | .slice xs => visitedInList xs
  | _ => []
/-- The texts visited in a list of elements. -/
def visitedInList : List Interface → List String
  | [] => []
  | x :: xs => visitedInElement x ++ visitedInList xs
/-- The texts visited in one element. -/
def visitedInElement : Interface → List String
  | .map r =>
    (match r.index "max_age" with
      | .string maxAge => [maxAge]
      | _ => [])
    ++ (if (r.index "mode").isNil then [] else visitedMaxAges r)
  | _ => []
end

/-- The text is a valid duration literal. -/
def validDuration (s : String) : Bool :=
  match ParseDuration s with
  | .ok _ => true
  | .error _ => false

/-- The first text of the list that is not a valid duration literal. -/
def firstInvalidIn (texts : List String) : Option String :=
  texts.find? fun s => !validDuration s

/-- The first visited `max_age`, in traversal order, that fails to parse. -/
def firstInvalidMaxAge (m : JSONMap) : Option String :=
  firstInvalidIn (visitedMaxAges m)

/-- The error of line 383 for the text `maxAge`. -/
def invalidDurationError (maxAge : String) : String :=
  "invalid duration string: " ++ maxAge

mutual
/-- No combinator anywhere in the policy tree has `NoGcPolicy` among its
children. -/
def GCPolicy.noNoPolicyChild : GCPolicy → Bool
  | .UnionPolicy sub => noNoPolicyAmong sub
  | .IntersectionPolicy sub => noNoPolicyAmong sub
  | _ => true
/-- No policy of the list is `NoGcPolicy`, and none has it below a combinator. -/
def noNoPolicyAmong : List GCPolicy → Bool
  | [] => true
  | c :: cs => !c.isNoGcPolicy && c.noNoPolicyChild && noNoPolicyAmong cs
end

/-- The outcome the first invalid text dictates: the error of line 383 for it, or
success when there is none. -/
def DecidedBy {α : Type} (first : Option String) (result : Result α) : Prop :=
  match first with
  | some lit => result = .err (invalidDurationError lit)
  | none => ∃ v, result = .ok v

/-! ### Documents of the examples -/

/-- The float64 1. -/
def one : Float64 := ⟨false, 1, 0⟩

/-- The document `{"rules":[{"max_age":"1h"},{"max_version":1}],"mode":"union"}`. -/
def unionDocument : JSONMap :=
  .ofList [("rules", .slice [.map (.ofList [("max_age", .string "1h")]),
    .map (.ofList [("max_version", .float64 one)])]), ("mode", .string "union")]

/-- The document `{"rules":[{"max_age":"1h"},{"max_version":1}]}`. -/
def noModeDocument : JSONMap :=
  .ofList [("rules", .slice [.map (.ofList [("max_age", .string "1h")]),
    .map (.ofList [("max_version", .float64 one)])])]

/-- The document `{"rules":[{"max_age":"notaduration"}]}`. -/
def invalidDocument : JSONMap :=
  .ofList [("rules", .slice [.map (.ofList [("max_age", .string "notaduration")])])]

/-- The document `{"rules":1}`. -/
def rulesNotArrayDocument : JSONMap := .ofList [("rules", .float64 one)]

/-- The diff of the first example of the specification: 7 days become `168h`. -/
def diff7Days168h : TerraformResourceDiff :=
  ⟨1, 7, 7, "", "168h", fun _ => none, []⟩

/-- The diff of the second example of the specification: 7 days become `1h`. -/
def diff7Days1h : TerraformResourceDiff :=
  ⟨1, 7, 7, "", "1h", fun _ => none, []⟩

/-! ### The number a float64 stands for -/

/-- The rational number a `float64` stands for. -/
def Float64.value (x : Float64) : ℚ :=
  (if x.neg then -1 else 1) * (x.mant : ℚ) * (2 : ℚ) ^ x.exp

/-- Truncation of a rational toward zero. -/
def truncate (q : ℚ) : Int := if 0 ≤ q then ⌊q⌋ else ⌈q⌉

/-- The float64 2.5. -/
def twoAndAHalf : Float64 := ⟨false, 5, -1⟩

/-- The float64 2^70 (the JSON number 1180591620717411303424). -/
def twoPow70 : Float64 := ⟨false, 1, 70⟩

/-- The document `{"rules":[{"max_version":v}],"mode":"union"}`. -/
def versionDocument (v : Float64) : JSONMap :=
  .ofList [("rules", .slice [.map (.ofList [("max_version", .float64 v)])]),
    ("mode", .string "union")]

/-- The text `lit` occurs in the text `msg`. -/
def containsText (msg lit : String) : Bool :=
  msg.toList.tails.any fun t => lit.toList.isPrefixOf t

/-! ## Facts about durations -/

theorem wrapInt64_of_range (x : Int) (h1 : -(2 ^ 63) ≤ x) (h2 : x < 2 ^ 63) :
    wrapInt64 x = x := by
  unfold wrapInt64
  omega

theorem wrapInt64_range (x : Int) : -(2 ^ 63) ≤ wrapInt64 x ∧ wrapInt64 x < 2 ^ 63 := by
  unfold wrapInt64
  omega

theorem day_eq : Hour * 24 = 86400000000000 := by decide

theorem timeError_invalid (orig : String) : TimeError ("time: invalid duration " ++ quote orig) :=
  ⟨"invalid duration " ++ quote orig, by rw [← String.append_assoc]; rfl⟩

theorem timeError_missing (orig : String) :
    TimeError ("time: missing unit in duration " ++ quote orig) :=
  ⟨"missing unit in duration " ++ quote orig, by rw [← String.append_assoc]; rfl⟩

theorem timeError_unknown (u orig : String) :
    TimeError ("time: unknown unit " ++ quote u ++ " in duration " ++ quote orig) :=
  ⟨"unknown unit " ++ quote u ++ " in duration " ++ quote orig, by
    simp only [← String.append_assoc]; rfl⟩

theorem parseDurationRound_error (orig : String) (c : Char) (cs : List Char) (e : String)
    (h : parseDurationRound orig c cs = .error e) : TimeError e := by
  unfold parseDurationRound at h
  simp only at h
  repeat' split at h
  all_goals
    cases h <;> first
      | exact timeError_invalid orig
      | exact timeError_missing orig
      | exact timeError_unknown _ orig

theorem parseDurationLoop_error (orig : String) :
    ∀ (fuel : Nat) (s : List Char) (d : Nat) (e : String),
      parseDurationLoop orig fuel s d = .error e → TimeError e := by
  intro fuel
  induction fuel with
  | zero =>
    intro s d e h
    cases s with
    | nil => simp [parseDurationLoop] at h
    | cons c cs =>
      simp only [parseDurationLoop] at h
      cases h
      exact timeError_invalid orig
  | succ n ih =>
    intro s d e h
    cases s with
    | nil => simp [parseDurationLoop] at h
    | cons c cs =>
      simp only [parseDurationLoop] at h
      split at h
      · rename_i err herr
        cases h
        exact parseDurationRound_error orig _ _ _ herr
      · split at h
        · cases h
          exact timeError_invalid orig
        · exact ih _ _ _ h

theorem ParseDuration_error (s e : String) (h : ParseDuration s = .error e) : TimeError e := by
  unfold ParseDuration at h
  simp only at h
  repeat' split at h
  all_goals first
    | (cases h; exact timeError_invalid s)
    | cases h
  all_goals rename_i h1
  all_goals exact parseDurationLoop_error _ _ _ _ _ h1

theorem timeError_ne_modeEmptyError (e : String) (h : TimeError e) : e ≠ modeEmptyError := by
  obtain ⟨t, rfl⟩ := h
  intro h
  have h1 := congrArg (fun s => s.data.head?) h
  simp [String.data_append, modeEmptyError] at h1

/-! ### The bound on the rounds of `ParseDuration` is never reached -/

theorem leadingInt_length :
    ∀ (s : List Char) (x v : Nat) (rest : List Char),
      leadingInt s x = some (v, rest) → rest.length ≤ s.length := by
  intro s
  induction s with
  | nil =>
    intro x v rest h
    simp only [leadingInt, Option.some.injEq, Prod.mk.injEq] at h
    rw [← h.2]
  | cons c cs ih =>
    intro x v rest h
    simp only [leadingInt] at h
    repeat' split at h
    · simp only [Option.some.injEq, Prod.mk.injEq] at h
      rw [← h.2]
    · cases h
    · cases h
    · have := ih _ _ _ h
      simp only [List.length_cons]
      omega

theorem leadingFraction_length :
    ∀ (s : List Char) (x : Nat) (scale : Float64) (overflow : Bool),
      (leadingFraction s x scale overflow).2.2.length ≤ s.length := by
  intro s
  induction s with
  | nil => intro x scale overflow; simp [leadingFraction]
  | cons c cs ih =>
    intro x scale overflow
    simp only [leadingFraction]
    repeat' split
    all_goals first
      | exact Nat.le_refl _
      | exact Nat.le_succ_of_le (ih _ _ _)

theorem unitLen_le : ∀ (s : List Char), unitLen s ≤ s.length := by
  intro s
  induction s with
  | nil => simp [unitLen]
  | cons c cs ih =>
    simp only [unitLen]
    split
    · exact Nat.zero_le _
    · simp only [List.length_cons]
      omega

theorem fractionPart_length (s1 : List Char) :
    (fractionPart s1).2.2.1.length ≤ s1.length := by
  unfold fractionPart
  split
  · simp only [List.length_cons]
    exact Nat.le_succ_of_le (leadingFraction_length _ _ _ _)
  · exact Nat.le_refl _

theorem parseDurationRound_length (orig : String) (c : Char) (cs : List Char) (v : Nat)
    (rest : List Char) (h : parseDurationRound orig c cs = .ok (v, rest)) :
    rest.length ≤ cs.length := by
  unfold parseDurationRound at h
  split at h
  · cases h
  · split at h
    · cases h
    · rename_i v0 s1 hint
      have h1 := leadingInt_length _ _ _ _ hint
      have h2 := fractionPart_length s1
      have h3 := unitLen_le (fractionPart s1).2.2.1
      simp only [List.length_cons] at h1
      simp only at h
      repeat' split at h
      all_goals first
        | (cases h; done)
        | (simp only [Except.ok.injEq, Prod.mk.injEq] at h
           rw [← h.2, List.length_drop]
           omega)

theorem parseDurationLoop_fuel_irrelevant (orig : String) :
    ∀ (n m : Nat) (s : List Char) (d : Nat), s.length ≤ n → s.length ≤ m →
      parseDurationLoop orig n s d = parseDurationLoop orig m s d := by
  intro n
  induction n with
  | zero =>
    intro m s d hn hm
    cases s with
    | nil => cases m <;> simp [parseDurationLoop]
    | cons c cs => simp at hn
  | succ n ih =>
    intro m s d hn hm
    cases s with
    | nil => cases m <;> simp [parseDurationLoop]
    | cons c cs =>
      cases m with
      | zero => simp at hm
      | succ m =>
        simp only [parseDurationLoop]
        simp only [List.length_cons, Nat.add_le_add_iff_right] at hn hm
        cases hround : parseDurationRound orig c cs with
        | error e => rfl
        | ok r =>
          obtain ⟨v, rest⟩ := r
          have hl := parseDurationRound_length orig c cs v rest hround
          simp only
          split
          · rfl
          · exact ih m rest _ (by omega) (by omega)

/-- Any bound on the number of rounds that is at least the length of the text
gives the result of the bound `ParseDuration` uses: the loop always ends by
itself. -/
theorem parseDurationLoop_fuel (orig : String) (fuel : Nat) (s : List Char) (d : Nat)
    (h : s.length ≤ fuel) :
    parseDurationLoop orig fuel s d = parseDurationLoop orig s.length s d :=
  parseDurationLoop_fuel_irrelevant orig fuel s.length s d h (Nat.le_refl _)

/-- Witness: on the text `1h2m` a bound of 100 rounds gives what the bound 4 gives,
3,720,000,000,000 nanoseconds. -/
theorem parseDurationLoop_fuel_witness :
    parseDurationLoop "1h2m" 100 ['1', 'h', '2', 'm'] 0 = .ok 3720000000000 :=
  (parseDurationLoop_fuel "1h2m" 100 ['1', 'h', '2', 'm'] 0 (by decide)).trans (by rfl)

/-! ## getMaxAgeDuration -/

theorem getMaxAgeDuration_days (days : Int) :
    getMaxAgeDuration ⟨days, ""⟩ = .ok (wrapInt64 (days * 86400000000000)) := by
  simp [getMaxAgeDuration, day_eq, mul_comm]

theorem getMaxAgeDuration_duration (days : Int) (duration : String) (h : duration ≠ "") :
    getMaxAgeDuration ⟨days, duration⟩ = ParseDuration duration := by
  simp [getMaxAgeDuration, h]

theorem getMaxAgeDuration_error (ma : MaxAge) (e : String)
    (h : getMaxAgeDuration ma = .error e) :
    ma.duration ≠ "" ∧ ParseDuration ma.duration = .error e := by
  unfold getMaxAgeDuration at h
  by_cases hd : ma.duration = ""
  · simp [hd] at h
  · simp [hd] at h
    exact ⟨hd, h⟩

/-! ## generateBigtableGCPolicy -/

theorem generate_ambiguous (unmarshal : String → Except String JSONMap) (d : ResourceData)
    (h : d.ambiguous) : generateBigtableGCPolicy unmarshal d = .err modeEmptyError := by
  obtain ⟨mode, ma, mv, g⟩ := d
  obtain ⟨h1, h2, h3⟩ := h
  simp only at h1 h2 h3
  subst h1
  cases ma with
  | nil => exact absurd rfl h2
  | cons a as =>
    cases mv with
    | nil => exact absurd rfl h3
    | cons v vs => simp [generateBigtableGCPolicy, modeEmptyError]

theorem generate_gcRules (unmarshal : String → Except String JSONMap) (d : ResourceData)
    (hg : d.gc_rules ≠ "") (h : ¬ d.ambiguous) :
    generateBigtableGCPolicy unmarshal d = lowerText unmarshal d.gc_rules := by
  obtain ⟨mode, ma, mv, g⟩ := d
  simp only [ResourceData.ambiguous] at h hg
  unfold generateBigtableGCPolicy lowerText
  simp only
  have h1 : ((!(!ma.isEmpty) && !(!mv.isEmpty) && g == "") = true) = False := by
    simp [hg]
  have h2 : ((mode == "" && !ma.isEmpty && !mv.isEmpty) = true) = False := by
    simp only [eq_iff_iff, iff_false]
    intro hh
    simp only [Bool.and_eq_true, beq_iff_eq, Bool.not_eq_true', List.isEmpty_eq_false] at hh
    exact h ⟨hh.1.1, hh.1.2, hh.2⟩
  have h3 : ((g != "") = true) = True := by simp [hg]
  rw [if_neg (by rw [h1]; exact id), if_neg (by rw [h2]; exact id), if_pos (by rw [h3]; trivial)]

theorem generate_structured (unmarshal : String → Except String JSONMap) (d : ResourceData)
    (hg : d.gc_rules = "") (hsome : d.max_age ≠ [] ∨ d.max_version ≠ [])
    (h : ¬ d.ambiguous) :
    generateBigtableGCPolicy unmarshal d =
      match d.max_age with
      | ma :: _ =>
        (match getMaxAgeDuration ma with
          | .error err => .err err
          | .ok _ =>
            if d.mode = GCPolicyModeUnion then .ok (.UnionPolicy (structuredChildren d))
            else if d.mode = GCPolicyModeIntersection then
              .ok (.IntersectionPolicy (structuredChildren d))
            else .ok ((structuredChildren d).headD .NoGcPolicy))
      | [] =>
        if d.mode = GCPolicyModeUnion then .ok (.UnionPolicy (structuredChildren d))
        else if d.mode = GCPolicyModeIntersection then
          .ok (.IntersectionPolicy (structuredChildren d))
        else .ok ((structuredChildren d).headD .NoGcPolicy) := by
  obtain ⟨mode, ma, mv, g⟩ := d
  simp only [ResourceData.ambiguous] at h hg hsome
  subst hg
  cases ma with
  | nil =>
    cases mv with
    | nil => simp at hsome
    | cons v vs =>
      simp [generateBigtableGCPolicy, structuredChildren]
  | cons a as =>
    cases mv with
    | nil =>
      simp only [generateBigtableGCPolicy, structuredChildren]
      cases hres : getMaxAgeDuration a <;> simp
    | cons v vs =>
      have hm : mode ≠ "" := fun hm => h ⟨hm, by simp, by simp⟩
      simp only [generateBigtableGCPolicy, structuredChildren]
      cases hres : getMaxAgeDuration a <;> simp [hm]

/-! ## The diff customisation -/

theorem customizeDiff_unfold (diff : TerraformResourceDiff) (hcount : 1 ≤ diff.maxAgeCount) :
    resourceBigtableGCPolicyCustomizeDiffFunc diff =
      if diff.oldDuration = "" ∧ diff.newDuration ≠ "" then
        match ParseDuration diff.newDuration with
        | .error err => (some err, diff)
        | .ok dO =>
          if dO = wrapInt64 (diff.oldDays * 86400000000000) then
            match diff.Clear "max_age.0.days" with
            | (some err, diff1) => (some err, diff1)
            | (none, diff1) =>
              match diff1.Clear "max_age.0.duration" with
              | (some err, diff2) => (some err, diff2)
              | (none, diff2) => (none, diff2)
          else (none, diff)
      else (none, diff) := by
  have h : ¬ diff.maxAgeCount < 1 := by omega
  simp only [resourceBigtableGCPolicyCustomizeDiffFunc, h, if_false, day_eq,
    Bool.and_eq_true, beq_iff_eq, bne_iff_ne, ne_eq]
  rw [mul_comm]

theorem clear_both (diff : TerraformResourceDiff) (h : diff.clearSucceeds) :
    (match diff.Clear "max_age.0.days" with
      | (some err, diff1) => (some err, diff1)
      | (none, diff1) =>
        match diff1.Clear "max_age.0.duration" with
        | (some err, diff2) => (some err, diff2)
        | (none, diff2) => (none, diff2)) = (none, diff.bothCleared) := by
  obtain ⟨h1, h2⟩ := h
  simp [TerraformResourceDiff.Clear, h1, h2, TerraformResourceDiff.bothCleared]

/-- C2 (amended).  For a diff with an existing `max_age` block (`max_age.#` at
least 1), on which `Clear` does not fail, and whose old `days` value times 24 hours
fits the 64-bit duration (at most 106751 days in absolute value):
the function clears `max_age.0.days` and `max_age.0.duration` and returns no error
when the old duration is empty, the new one is non-empty and parses to exactly
`oldDays * 24h`; it returns the parse error and clears nothing when the old
duration is empty and the new one is non-empty but is not a duration; in every
other case it clears nothing and returns no error. -/
theorem customizeDiff_days_to_duration (diff : TerraformResourceDiff)
    (hcount : 1 ≤ diff.maxAgeCount) (hclear : diff.clearSucceeds)
    (hlo : -106751 ≤ diff.oldDays) (hhi : diff.oldDays ≤ 106751) :
    (∀ dur, diff.oldDuration = "" → diff.newDuration ≠ "" →
        ParseDuration diff.newDuration = .ok dur → dur = diff.oldDays * (24 * Hour) →
        resourceBigtableGCPolicyCustomizeDiffFunc diff = (none, diff.bothCleared))
    ∧ (∀ err, diff.oldDuration = "" → diff.newDuration ≠ "" →
        ParseDuration diff.newDuration = .error err →
        resourceBigtableGCPolicyCustomizeDiffFunc diff = (some err, diff))
    ∧ (∀ dur, ParseDuration diff.newDuration = .ok dur → dur ≠ diff.oldDays * (24 * Hour) →
        resourceBigtableGCPolicyCustomizeDiffFunc diff = (none, diff))
    ∧ (diff.oldDuration ≠ "" →
        resourceBigtableGCPolicyCustomizeDiffFunc diff = (none, diff))
    ∧ (diff.newDuration = "" →
        resourceBigtableGCPolicyCustomizeDiffFunc diff = (none, diff)) := by
  have hw : wrapInt64 (diff.oldDays * 86400000000000) = diff.oldDays * (24 * Hour) := by
    have h24 : (24 : Int) * Hour = 86400000000000 := by decide
    rw [h24]
    apply wrapInt64_of_range <;> omega
  rw [customizeDiff_unfold diff hcount, hw]
  refine ⟨?_, ?_, ?_, ?_, ?_⟩
  · intro dur h1 h2 h3 h4
    rw [if_pos ⟨h1, h2⟩, h3]
    simp only [h4, if_true]
    exact clear_both diff hclear
  · intro err h1 h2 h3
    rw [if_pos ⟨h1, h2⟩, h3]
  · intro dur h3 h4
    split
    · rw [h3]
      simp only [h4, if_false]
    · rfl
  · intro h1
    rw [if_neg (fun h => h1 h.1)]
  · intro h2
    rw [if_neg (fun h => h.2 h2)]

/-- Witness of C2: 7 days and `168h` are the same duration, both fields are
cleared; 7 days and `1h` differ, nothing is cleared. -/
theorem customizeDiff_days_to_duration_witness :
    resourceBigtableGCPolicyCustomizeDiffFunc diff7Days168h =
        (none, ⟨1, 7, 7, "", "168h", diff7Days168h.clearError,
          ["max_age.0.days", "max_age.0.duration"]⟩)
    ∧ resourceBigtableGCPolicyCustomizeDiffFunc diff7Days1h = (none, diff7Days1h) :=
  ⟨(customizeDiff_days_to_duration diff7Days168h (by decide) ⟨rfl, rfl⟩ (by decide)
      (by decide)).1 604800000000000 rfl (by decide) (by rfl) (by decide),
    (customizeDiff_days_to_duration diff7Days1h (by decide) ⟨rfl, rfl⟩ (by decide)
      (by decide)).2.2.1 3600000000000 (by rfl) (by decide)⟩

/-- Counterexample to C2 as stated.  With the old duration empty and the new
duration `bogus`, which is none of the listed cases of a cleared diff, the
function returns an error; and with 2^48 old days and the new duration `0s` it
clears both fields, although 2^48 days are not zero seconds (the 64-bit product
`oldDays * 24h` wraps to 0). -/
theorem customizeDiff_counterexample :
    (resourceBigtableGCPolicyCustomizeDiffFunc
        ⟨1, 7, 7, "", "bogus", fun _ => none, []⟩).1
      = some "time: invalid duration \"bogus\""
    ∧ (resourceBigtableGCPolicyCustomizeDiffFunc
        ⟨1, 281474976710656, 0, "", "0s", fun _ => none, []⟩).2.cleared
      = ["max_age.0.days", "max_age.0.duration"]
    ∧ ParseDuration "0s" = .ok 0
    ∧ (281474976710656 : Int) * (24 * Hour) = 24319437987800678400000000000 := by
  refine ⟨by rfl, by rfl, by rfl, by decide⟩

/-! ## The structured form and the order of the guards -/

/-- C9 (the code at the failing input).  With 106752 days and no duration text,
`getMaxAgeDuration` returns without error a negative duration: the 64-bit product
`24h * days` has wrapped around, the exact product being 9223372800000000000
nanoseconds. -/
theorem getMaxAgeDuration_wraps_at_106752 :
    getMaxAgeDuration ⟨106752, ""⟩ = .ok (-9223371273709551616)
    ∧ (106752 : Int) * 86400000000000 = 9223372800000000000
    ∧ (9223372800000000000 : Int) ≥ 2 ^ 63 := by
  refine ⟨?_, by decide, by decide⟩
  rw [getMaxAgeDuration_days]
  exact congrArg Except.ok (by decide)

/-- For up to 106751 days (in absolute value) and no duration text,
`getMaxAgeDuration` returns exactly `days` times 86,400,000,000,000 nanoseconds,
a value inside the 64-bit range; the diff customisation computes `oldDays * 24h`
by the same expression. -/
theorem getMaxAgeDuration_days_exact (days : Int) (hlo : -106751 ≤ days)
    (hhi : days ≤ 106751) :
    getMaxAgeDuration ⟨days, ""⟩ = .ok (days * 86400000000000)
    ∧ -(2 ^ 63) ≤ days * 86400000000000 ∧ days * 86400000000000 < 2 ^ 63
    ∧ wrapInt64 (Hour * 24 * days) = days * 86400000000000 := by
  have hw : wrapInt64 (days * 86400000000000) = days * 86400000000000 := by
    apply wrapInt64_of_range <;> omega
  refine ⟨?_, by omega, by omega, ?_⟩
  · rw [getMaxAgeDuration_days, hw]
  · rw [day_eq, mul_comm, hw]

/-- Witness: 7 days are 604,800,000,000,000 nanoseconds. -/
theorem getMaxAgeDuration_days_exact_witness :
    getMaxAgeDuration ⟨7, ""⟩ = .ok (7 * 86400000000000) :=
  (getMaxAgeDuration_days_exact 7 (by decide) (by decide)).1

/-- C1 (amended).  For a configuration whose `gc_rules` is non-empty:
unless both `max_age` and `max_version` are present and `mode` is empty, the
result is exactly that of parsing `gc_rules` and lowering the document with
`getGCPolicyFromJSON`, so two such configurations with the same `gc_rules` give the
same result whatever their `mode`, `max_age` and `max_version`; when both are
present and `mode` is empty the configuration is rejected with the error of line
332 before `gc_rules` is looked at. -/
theorem generate_gc_rules_path (unmarshal : String → Except String JSONMap)
    (d d2 : ResourceData) (hg : d.gc_rules ≠ "") :
    (¬ d.ambiguous →
        generateBigtableGCPolicy unmarshal d = lowerText unmarshal d.gc_rules)
    ∧ (d2.gc_rules = d.gc_rules → ¬ d.ambiguous → ¬ d2.ambiguous →
        generateBigtableGCPolicy unmarshal d2 = generateBigtableGCPolicy unmarshal d)
    ∧ (d.ambiguous → generateBigtableGCPolicy unmarshal d = .err modeEmptyError) := by
  refine ⟨generate_gcRules unmarshal d hg, ?_, generate_ambiguous unmarshal d⟩
  intro h2 ha ha2
  rw [generate_gcRules unmarshal d hg ha, generate_gcRules unmarshal d2 (h2 ▸ hg) ha2, h2]

/-- Witness of C1: with `gc_rules` the text `{}`, a configuration that also sets
`mode` and `max_age` gives what the configuration with `gc_rules` alone gives. -/
theorem generate_gc_rules_path_witness :
    generateBigtableGCPolicy (unmarshalOnly "{}" (.ofList []))
        ⟨"UNION", [⟨3, ""⟩], [], "{}"⟩
      = generateBigtableGCPolicy (unmarshalOnly "{}" (.ofList [])) ⟨"", [], [], "{}"⟩ :=
  (generate_gc_rules_path (unmarshalOnly "{}" (.ofList [])) ⟨"", [], [], "{}"⟩
    ⟨"UNION", [⟨3, ""⟩], [], "{}"⟩ (by decide)).2.1 rfl (by decide) (by decide)

/-- Counterexample to C1 as stated.  With `gc_rules` the text `{}`, which lowers
to `NoGcPolicy`, the configuration that has a `max_age` block, a `max_version`
block and an empty `mode` is rejected with the error of line 332, while the
configuration with the same `gc_rules` and nothing else gives `NoGcPolicy`. -/
theorem generate_gc_rules_counterexample :
    generateBigtableGCPolicy (unmarshalOnly "{}" (.ofList []))
        ⟨"", [⟨1, ""⟩], [⟨1⟩], "{}"⟩
      = .err "if multiple policies are set, mode can't be empty"
    ∧ lowerText (unmarshalOnly "{}" (.ofList [])) "{}" = .ok .NoGcPolicy
    ∧ generateBigtableGCPolicy (unmarshalOnly "{}" (.ofList [])) ⟨"", [], [], "{}"⟩
      = .ok .NoGcPolicy := by
  refine ⟨by rfl, by rfl, by rfl⟩

/-- C3.  Every configuration in which both `max_age` and `max_version` are present
and `mode` is empty fails with the error of line 332 (no policy is returned); and
in the structured form (`gc_rules` empty) that error is returned for no other
configuration: any other failure there is the error `time.ParseDuration` gives
for the duration text of the first `max_age` block, and there is no panic. -/
theorem generate_mode_empty_error (unmarshal : String → Except String JSONMap)
    (d : ResourceData) :
    (d.ambiguous → generateBigtableGCPolicy unmarshal d = .err modeEmptyError)
    ∧ (d.gc_rules = "" → generateBigtableGCPolicy unmarshal d = .err modeEmptyError →
        d.ambiguous)
    ∧ (d.gc_rules = "" → ¬ d.ambiguous →
        ∀ msg, generateBigtableGCPolicy unmarshal d = .err msg →
          TimeError msg ∧ ∃ ma rest, d.max_age = ma :: rest ∧ ma.duration ≠ ""
            ∧ ParseDuration ma.duration = .error msg)
    ∧ (d.gc_rules = "" → ∀ msg, generateBigtableGCPolicy unmarshal d ≠ .panic msg) := by
  have key : d.gc_rules = "" → ¬ d.ambiguous →
      (∀ msg, generateBigtableGCPolicy unmarshal d = .err msg →
          TimeError msg ∧ ∃ ma rest, d.max_age = ma :: rest ∧ ma.duration ≠ ""
            ∧ ParseDuration ma.duration = .error msg)
      ∧ (∀ msg, generateBigtableGCPolicy unmarshal d ≠ .panic msg) := by
    intro hg ha
    by_cases hsome : d.max_age ≠ [] ∨ d.max_version ≠ []
    · rw [generate_structured unmarshal d hg hsome ha]
      cases hma : d.max_age with
      | nil =>
        refine ⟨?_, ?_⟩
        · intro msg h
          simp only at h
          repeat' split at h
          all_goals cases h
        · intro msg h
          simp only at h
          repeat' split at h
          all_goals cases h
      | cons ma rest =>
        cases hres : getMaxAgeDuration ma with
        | error e =>
          have he := getMaxAgeDuration_error ma e hres
          refine ⟨?_, ?_⟩
          · intro msg h
            simp only [hres] at h
            cases h
            exact ⟨ParseDuration_error _ _ he.2, ma, rest, rfl, he.1, he.2⟩
          · intro msg h
            simp only [hres] at h
            cases h
        | ok dur =>
          refine ⟨?_, ?_⟩
          · intro msg h
            simp only [hres] at h
            repeat' split at h
            all_goals cases h
          · intro msg h
            simp only [hres] at h
            repeat' split at h
            all_goals cases h
    · have h1 : d.max_age = [] := by
        by_contra h; exact hsome (Or.inl h)
      have h2 : d.max_version = [] := by
        by_contra h; exact hsome (Or.inr h)
      have : generateBigtableGCPolicy unmarshal d = .ok .NoGcPolicy := by
        simp [generateBigtableGCPolicy, h1, h2, hg]
      rw [this]
      exact And.intro (fun msg h => by cases h) (fun msg h => by cases h)
  refine ⟨generate_ambiguous unmarshal d, ?_, fun hg ha => (key hg ha).1, ?_⟩
  · intro hg h
    by_contra ha
    exact timeError_ne_modeEmptyError _ ((key hg ha).1 _ h).1 rfl
  · intro hg msg
    by_cases ha : d.ambiguous
    · rw [generate_ambiguous unmarshal d ha]
      intro h
      cases h
    · exact (key hg ha).2 msg

/-- Witness of C3: a `max_age` block of 1 day, a `max_version` block of 1 and an
empty `mode`. -/
theorem generate_mode_empty_error_witness :
    generateBigtableGCPolicy (unmarshalOnly "{}" (.ofList [])) ⟨"", [⟨1, ""⟩], [⟨1⟩], ""⟩
      = .err modeEmptyError :=
  (generate_mode_empty_error (unmarshalOnly "{}" (.ofList []))
    ⟨"", [⟨1, ""⟩], [⟨1⟩], ""⟩).1 (by decide)

/-- C7.  In the structured form (`gc_rules` empty, at least one of `max_age` and
`max_version` present, not both present with an empty `mode`), when the age
threshold of the `max_age` block resolves without error, the result is the
combinator of the mode over the child list when `mode` is `UNION` or
`INTERSECTION`, the child list being the age leaf (if `max_age` is present)
followed by the version leaf (if `max_version` is present); and when `mode` is
empty the child list is a single leaf and the result is that leaf itself. -/
theorem generate_structured_form (unmarshal : String → Except String JSONMap)
    (d : ResourceData) (hg : d.gc_rules = "")
    (hsome : d.max_age ≠ [] ∨ d.max_version ≠ []) (ha : ¬ d.ambiguous)
    (hage : ∀ ma rest, d.max_age = ma :: rest → ∃ dur, getMaxAgeDuration ma = .ok dur) :
    (d.mode = "UNION" →
        generateBigtableGCPolicy unmarshal d = .ok (.UnionPolicy (structuredChildren d)))
    ∧ (d.mode = "INTERSECTION" →
        generateBigtableGCPolicy unmarshal d
          = .ok (.IntersectionPolicy (structuredChildren d)))
    ∧ (d.mode = "" →
        ∃ leaf, structuredChildren d = [leaf] ∧ leaf.isLeaf = true
          ∧ generateBigtableGCPolicy unmarshal d = .ok leaf)
    ∧ (∀ ma rest dur, d.max_age = ma :: rest → getMaxAgeDuration ma = .ok dur →
        structuredChildren d
          = .MaxAgePolicy dur :: (d.max_version.head?.map fun mv =>
              GCPolicy.MaxVersionsPolicy mv.number).toList)
    ∧ (d.max_age = [] →
        structuredChildren d
          = (d.max_version.head?.map fun mv => GCPolicy.MaxVersionsPolicy mv.number).toList) := by
  have hgen := generate_structured unmarshal d hg hsome ha
  obtain ⟨mode, ma, mv, g⟩ := d
  simp only [ResourceData.ambiguous] at *
  cases ma with
  | nil =>
    cases mv with
    | nil => simp at hsome
    | cons v vs =>
      simp only at hgen
      rw [hgen]
      refine ⟨?_, ?_, ?_, ?_, ?_⟩
      · intro hm; subst hm; simp [GCPolicyModeUnion]
      · intro hm; subst hm; simp [GCPolicyModeUnion, GCPolicyModeIntersection]
      · intro hm; subst hm
        exact ⟨.MaxVersionsPolicy v.number, by simp [structuredChildren], rfl,
          by simp [GCPolicyModeUnion, GCPolicyModeIntersection, structuredChildren]⟩
      · intro ma rest dur h; cases h
      · intro _; simp [structuredChildren]
  | cons a as =>
    obtain ⟨dur, hdur⟩ := hage a as rfl
    simp only [hdur] at hgen
    rw [hgen]
    refine ⟨?_, ?_, ?_, ?_, ?_⟩
    · intro hm; subst hm; simp [GCPolicyModeUnion]
    · intro hm; subst hm; simp [GCPolicyModeUnion, GCPolicyModeIntersection]
    · intro hm; subst hm
      cases mv with
      | nil =>
        exact ⟨.MaxAgePolicy dur, by simp [structuredChildren, hdur], rfl,
          by simp [GCPolicyModeUnion, GCPolicyModeIntersection, structuredChildren, hdur]⟩
      | cons v vs => exact absurd ⟨rfl, by simp, by simp⟩ ha
    · intro ma rest dur2 h h2
      cases h
      rw [hdur] at h2
      cases h2
      cases mv <;> simp [structuredChildren, hdur]
    · intro h; cases h

/-- Witness of C7: `mode = UNION`, a `max_age` block of `1h` and a `max_version`
block of 2 give the union of the two leaves. -/
theorem generate_structured_form_witness :
    generateBigtableGCPolicy (unmarshalOnly "{}" (.ofList []))
        ⟨"UNION", [⟨0, "1h"⟩], [⟨2⟩], ""⟩
      = .ok (.UnionPolicy [.MaxAgePolicy 3600000000000, .MaxVersionsPolicy 2]) :=
  (generate_structured_form (unmarshalOnly "{}" (.ofList []))
    ⟨"UNION", [⟨0, "1h"⟩], [⟨2⟩], ""⟩ rfl (by decide) (by decide)
    (fun ma rest h => by cases h; exact ⟨3600000000000, by rfl⟩)).1 rfl

/-- For a diff with an existing `max_age` block on which `Clear` does not fail, the
two fields are cleared exactly when the old duration is empty, the new one is
non-empty and parses to the 64-bit product `24h * oldDays` (the product reduced to
the `int64` range, which is `oldDays * 24h` only up to 106751 days). -/
theorem customizeDiff_clears_iff (diff : TerraformResourceDiff)
    (hcount : 1 ≤ diff.maxAgeCount) (hclear : diff.clearSucceeds) :
    (diff.oldDuration = "" ∧ diff.newDuration ≠ ""
        ∧ ParseDuration diff.newDuration = .ok (wrapInt64 (diff.oldDays * 86400000000000)) →
      resourceBigtableGCPolicyCustomizeDiffFunc diff = (none, diff.bothCleared))
    ∧ (¬ (diff.oldDuration = "" ∧ diff.newDuration ≠ ""
        ∧ ParseDuration diff.newDuration = .ok (wrapInt64 (diff.oldDays * 86400000000000))) →
      (resourceBigtableGCPolicyCustomizeDiffFunc diff).2 = diff) := by
  rw [customizeDiff_unfold diff hcount]
  refine ⟨?_, ?_⟩
  · intro ⟨h1, h2, h3⟩
    rw [if_pos ⟨h1, h2⟩, h3]
    simp only [if_true]
    exact clear_both diff hclear
  · intro h
    by_cases h12 : diff.oldDuration = "" ∧ diff.newDuration ≠ ""
    · rw [if_pos h12]
      cases hp : ParseDuration diff.newDuration with
      | error e => rfl
      | ok dO =>
        have hne : dO ≠ wrapInt64 (diff.oldDays * 86400000000000) := by
          intro he
          exact h ⟨h12.1, h12.2, by rw [hp, he]⟩
        simp only [hne, if_false]
    · rw [if_neg h12]

/-- Witness: 2^48 old days and the new duration `0s`; the 64-bit product is 0 and
both fields are cleared. -/
theorem customizeDiff_clears_iff_witness :
    (resourceBigtableGCPolicyCustomizeDiffFunc
        ⟨1, 281474976710656, 0, "", "0s", fun _ => none, []⟩).2.cleared
      = ["max_age.0.days", "max_age.0.duration"] :=
  congrArg (fun r => r.2.cleared)
    ((customizeDiff_clears_iff ⟨1, 281474976710656, 0, "", "0s", fun _ => none, []⟩
      (by decide) ⟨rfl, rfl⟩).1 ⟨rfl, by decide, by rfl⟩)

/-! ## getGCPolicyFromJSON -/

theorem noNoPolicyAmong_append (xs ys : List GCPolicy) :
    noNoPolicyAmong (xs ++ ys) = (noNoPolicyAmong xs && noNoPolicyAmong ys) := by
  induction xs with
  | nil => simp [noNoPolicyAmong]
  | cons x xs ih => simp [noNoPolicyAmong, ih, Bool.and_assoc]

theorem appendMaxAge_ok (r : JSONMap) (policies res : List GCPolicy)
    (h : appendMaxAge r policies = .ok res) :
    res = policies ∨ ∃ d, res = policies ++ [.MaxAgePolicy d] := by
  unfold appendMaxAge at h
  repeat' split at h
  all_goals cases h
  · exact Or.inl rfl
  · exact Or.inr ⟨_, rfl⟩

theorem appendMaxVersion_ok (r : JSONMap) (policies res : List GCPolicy)
    (h : appendMaxVersion r policies = .ok res) :
    res = policies ∨ ∃ n, res = policies ++ [.MaxVersionsPolicy n] := by
  unfold appendMaxVersion at h
  repeat' split at h
  all_goals cases h
  · exact Or.inl rfl
  · exact Or.inr ⟨_, rfl⟩

theorem noNoPolicy_appendMaxAge (r : JSONMap) (policies res : List GCPolicy)
    (hp : noNoPolicyAmong policies = true) (h : appendMaxAge r policies = .ok res) :
    noNoPolicyAmong res = true := by
  rcases appendMaxAge_ok r policies res h with rfl | ⟨d, rfl⟩
  · exact hp
  · simp [noNoPolicyAmong_append, hp, noNoPolicyAmong, GCPolicy.isNoGcPolicy,
      GCPolicy.noNoPolicyChild]

theorem noNoPolicy_appendMaxVersion (r : JSONMap) (policies res : List GCPolicy)
    (hp : noNoPolicyAmong policies = true) (h : appendMaxVersion r policies = .ok res) :
    noNoPolicyAmong res = true := by
  rcases appendMaxVersion_ok r policies res h with rfl | ⟨d, rfl⟩
  · exact hp
  · simp [noNoPolicyAmong_append, hp, noNoPolicyAmong, GCPolicy.isNoGcPolicy,
      GCPolicy.noNoPolicyChild]

mutual
theorem getGCPolicyFromJSON_noNoPolicy :
    ∀ (m : JSONMap) (pol : GCPolicy), getGCPolicyFromJSON m = .ok pol →
      pol.noNoPolicyChild = true
  | .mk p, pol, h => by
    rw [getGCPolicyFromJSON] at h
    split at h
    · cases h
      rfl
    · cases hr : rangeRulesOf (p "rules") with
      | ok policies =>
        have hw := rangeRulesOf_noNoPolicy (p "rules") policies hr
        rw [hr] at h
        simp only at h
        split at h
        · cases h
          simpa [GCPolicy.noNoPolicyChild] using hw
        · split at h
          · cases h
            simpa [GCPolicy.noNoPolicyChild] using hw
          · split at h
            · cases h
              rfl
            · cases h
              simp only [noNoPolicyAmong, Bool.and_eq_true] at hw
              exact hw.1.2
      | err e => rw [hr] at h; cases h
      | panic msg => rw [hr] at h; cases h
theorem rangeRulesOf_noNoPolicy :
    ∀ (v : Interface) (res : List GCPolicy), rangeRulesOf v = .ok res →
      noNoPolicyAmong res = true
  | .slice xs, res, h => by
    rw [rangeRulesOf] at h
    exact rangeRules_noNoPolicy xs [] res rfl h
  | .nil, res, h => by simp [rangeRulesOf] at h
  | .bool _, res, h => by simp [rangeRulesOf] at h
  | .float64 _, res, h => by simp [rangeRulesOf] at h
  | .string _, res, h => by simp [rangeRulesOf] at h
  | .map _, res, h => by simp [rangeRulesOf] at h
theorem rangeRules_noNoPolicy :
    ∀ (xs : List Interface) (policies res : List GCPolicy),
      noNoPolicyAmong policies = true → rangeRules xs policies = .ok res →
      noNoPolicyAmong res = true
  | [], policies, res, hp, h => by
    rw [rangeRules] at h
    cases h
    exact hp
  | .map r :: rest, policies, res, hp, h => by
    rw [rangeRules] at h
    cases h1 : appendMaxAge r policies with
    | ok policies1 =>
      have hp1 := noNoPolicy_appendMaxAge r policies policies1 hp h1
      rw [h1] at h
      simp only at h
      cases h2 : appendMaxVersion r policies1 with
      | ok policies2 =>
        have hp2 := noNoPolicy_appendMaxVersion r policies1 policies2 hp1 h2
        rw [h2] at h
        simp only at h
        split at h
        · exact rangeRules_noNoPolicy rest policies2 res hp2 h
        · cases h3 : getGCPolicyFromJSON r with
          | ok n =>
            have hn := getGCPolicyFromJSON_noNoPolicy r n h3
            rw [h3] at h
            simp only at h
            split at h
            · exact rangeRules_noNoPolicy rest policies2 res hp2 h
            · rename_i hnn
              refine rangeRules_noNoPolicy rest (policies2 ++ [n]) res ?_ h
              simp only [noNoPolicyAmong_append, hp2, noNoPolicyAmong, hn, Bool.and_true,
                Bool.true_and, Bool.not_eq_true']
              simpa using hnn
          | err e => rw [h3] at h; cases h
          | panic msg => rw [h3] at h; cases h
      | err e => rw [h2] at h; cases h
      | panic msg => rw [h2] at h; cases h
    | err e => rw [h1] at h; cases h
    | panic msg => rw [h1] at h; cases h
  | .nil :: _, _, _, _, h => by simp [rangeRules] at h
  | .bool _ :: _, _, _, _, h => by simp [rangeRules] at h
  | .float64 _ :: _, _, _, _, h => by simp [rangeRules] at h
  | .string _ :: _, _, _, _, h => by simp [rangeRules] at h
  | .slice _ :: _, _, _, _, h => by simp [rangeRules] at h
end

/-! ### What the loop collects -/

theorem appendMaxAge_eq (r : JSONMap) (policies res : List GCPolicy)
    (h : appendMaxAge r policies = .ok res) : res = policies ++ ageLeafOf r := by
  unfold appendMaxAge at h
  unfold ageLeafOf
  split at h
  · cases h
    simp [*]
  · rename_i maxAge hm
    rw [hm]
    split at h
    · cases h
    · rename_i duration hd
      cases h
      simp [hd]
  · cases h

theorem appendMaxVersion_eq (r : JSONMap) (policies res : List GCPolicy)
    (h : appendMaxVersion r policies = .ok res) : res = policies ++ versionLeafOf r := by
  unfold appendMaxVersion at h
  unfold versionLeafOf
  split at h
  · cases h
    simp [*]
  · rename_i version hm
    cases h
    rw [hm]
  · cases h

theorem rangeRules_eq :
    ∀ (xs : List Interface) (policies res : List GCPolicy),
      rangeRules xs policies = .ok res → res = policies ++ childrenOfRules xs := by
  intro xs
  induction xs with
  | nil =>
    intro policies res h
    rw [rangeRules] at h
    cases h
    simp [childrenOfRules]
  | cons raw rest ih =>
    intro policies res h
    cases raw with
    | map r =>
      rw [rangeRules] at h
      cases h1 : appendMaxAge r policies with
      | ok policies1 =>
        have e1 := appendMaxAge_eq r policies policies1 h1
        rw [h1] at h
        simp only at h
        cases h2 : appendMaxVersion r policies1 with
        | ok policies2 =>
          have e2 := appendMaxVersion_eq r policies1 policies2 h2
          rw [h2] at h
          simp only at h
          by_cases hmode : (r.index "mode").isNil = true
          · rw [if_pos hmode] at h
            rw [ih policies2 res h, e2, e1]
            simp [childrenOfRules, childrenOfRule, nestedPolicyOf, hmode]
          · rw [if_neg hmode] at h
            cases h3 : getGCPolicyFromJSON r with
            | ok n =>
              rw [h3] at h
              simp only at h
              by_cases hn : n.isNoGcPolicy = true
              · rw [if_pos hn] at h
                rw [ih policies2 res h, e2, e1]
                simp [childrenOfRules, childrenOfRule, nestedPolicyOf, hmode, h3, hn]
              · rw [if_neg hn] at h
                rw [ih (policies2 ++ [n]) res h, e2, e1]
                simp [childrenOfRules, childrenOfRule, nestedPolicyOf, hmode, h3, hn]
            | err e => rw [h3] at h; cases h
            | panic msg => rw [h3] at h; cases h
        | err e => rw [h2] at h; cases h
        | panic msg => rw [h2] at h; cases h
      | err e => rw [h1] at h; cases h
      | panic msg => rw [h1] at h; cases h
    | nil => simp [rangeRules] at h
    | bool _ => simp [rangeRules] at h
    | float64 _ => simp [rangeRules] at h
    | string _ => simp [rangeRules] at h
    | slice _ => simp [rangeRules] at h

/-! ### Rule documents: the first invalid `max_age` decides the outcome -/

theorem firstInvalidIn_append (a b : List String) :
    firstInvalidIn (a ++ b) = (firstInvalidIn a).or (firstInvalidIn b) := by
  simp [firstInvalidIn]

theorem validDuration_true (s : String) (h : validDuration s = true) :
    ∃ d, ParseDuration s = .ok d := by
  unfold validDuration at h
  split at h
  · exact ⟨_, by assumption⟩
  · cases h

theorem validDuration_false (s : String) (h : validDuration s = false) :
    ∃ e, ParseDuration s = .error e := by
  unfold validDuration at h
  split at h
  · cases h
  · exact ⟨_, by assumption⟩

theorem appendMaxAge_ruleDocument (r : JSONMap) (policies : List GCPolicy)
    (h : (r.index "max_age").isOptString = true) :
    (∃ maxAge, r.index "max_age" = .string maxAge ∧ validDuration maxAge = false
        ∧ appendMaxAge r policies = .err (invalidDurationError maxAge))
    ∨ ((∀ maxAge, r.index "max_age" = .string maxAge → validDuration maxAge = true)
        ∧ ∃ res, appendMaxAge r policies = .ok res) := by
  unfold appendMaxAge
  cases hm : r.index "max_age" with
  | nil => exact Or.inr ⟨fun _ h => (by cases h), policies, rfl⟩
  | string maxAge =>
    cases hv : validDuration maxAge with
    | false =>
      obtain ⟨e, he⟩ := validDuration_false maxAge hv
      exact Or.inl ⟨maxAge, rfl, hv, by simp [he, invalidDurationError]⟩
    | true =>
      obtain ⟨d, hd⟩ := validDuration_true maxAge hv
      exact Or.inr ⟨fun _ h => (by cases h; exact hv),
        policies ++ [.MaxAgePolicy d], by simp [hd]⟩
  | bool _ => simp [hm, Interface.isOptString] at h
  | float64 _ => simp [hm, Interface.isOptString] at h
  | slice _ => simp [hm, Interface.isOptString] at h
  | map _ => simp [hm, Interface.isOptString] at h

theorem appendMaxVersion_ruleDocument (r : JSONMap) (policies : List GCPolicy)
    (h : (r.index "max_version").isOptNumber = true) :
    ∃ res, appendMaxVersion r policies = .ok res := by
  unfold appendMaxVersion
  cases hm : r.index "max_version" with
  | nil => exact ⟨_, rfl⟩
  | float64 _ => exact ⟨_, rfl⟩
  | bool _ => simp [hm, Interface.isOptNumber] at h
  | string _ => simp [hm, Interface.isOptNumber] at h
  | slice _ => simp [hm, Interface.isOptNumber] at h
  | map _ => simp [hm, Interface.isOptNumber] at h

theorem isRuleDocument_fields (r : JSONMap) (h : r.isRuleDocument = true) :
    (r.index "max_age").isOptString = true ∧ (r.index "max_version").isOptNumber = true
      ∧ (r.index "rules").isOptRuleList = true := by
  cases r with
  | mk p =>
    rw [JSONMap.isRuleDocument] at h
    simp only [Bool.and_eq_true] at h
    exact ⟨h.1.1, h.1.2, h.2⟩

theorem decidedBy_none {α : Type} (result : Result α) (v : α) (h : result = .ok v) :
    DecidedBy none result := ⟨v, h⟩

mutual
theorem getGCPolicyFromJSON_decided :
    ∀ (m : JSONMap), m.isRuleDocument = true →
      DecidedBy (firstInvalidIn (visitedMaxAges m)) (getGCPolicyFromJSON m)
  | .mk p, h => by
    have hf := (isRuleDocument_fields (.mk p) h).2.2
    simp only [JSONMap.index] at hf
    rw [getGCPolicyFromJSON, visitedMaxAges]
    by_cases hnil : (p "rules").isNil = true
    · rw [if_pos hnil]
      cases hr : p "rules" with
      | nil => exact ⟨_, rfl⟩
      | bool _ => simp [hr, Interface.isNil] at hnil
      | float64 _ => simp [hr, Interface.isNil] at hnil
      | string _ => simp [hr, Interface.isNil] at hnil
      | slice _ => simp [hr, Interface.isNil] at hnil
      | map _ => simp [hr, Interface.isNil] at hnil
    · rw [if_neg hnil]
      have ih := rangeRulesOf_decided (p "rules") hf (by simpa using hnil)
      cases hfi : firstInvalidIn (visitedInRules (p "rules")) with
      | some lit =>
        rw [hfi] at ih
        simp only [DecidedBy] at ih ⊢
        rw [ih]
      | none =>
        rw [hfi] at ih
        obtain ⟨policies, hp⟩ := ih
        simp only [DecidedBy]
        rw [hp]
        simp only
        split
        · exact ⟨_, rfl⟩
        · split
          · exact ⟨_, rfl⟩
          · split
            · exact ⟨_, rfl⟩
            · exact ⟨_, rfl⟩
theorem rangeRulesOf_decided :
    ∀ (v : Interface), v.isOptRuleList = true → v.isNil = false →
      DecidedBy (firstInvalidIn (visitedInRules v)) (rangeRulesOf v)
  | .slice xs, h, _ => by
    rw [rangeRulesOf, visitedInRules]
    rw [Interface.isOptRuleList] at h
    exact rangeRules_decided xs [] h
  | .nil, _, h => by simp [Interface.isNil] at h
  | .bool _, h, _ => by simp [Interface.isOptRuleList] at h
  | .float64 _, h, _ => by simp [Interface.isOptRuleList] at h
  | .string _, h, _ => by simp [Interface.isOptRuleList] at h
  | .map _, h, _ => by simp [Interface.isOptRuleList] at h
theorem rangeRules_decided :
    ∀ (xs : List Interface) (policies : List GCPolicy), allRuleDocuments xs = true →
      DecidedBy (firstInvalidIn (visitedInList xs)) (rangeRules xs policies)
  | [], policies, _ => by
    rw [rangeRules, visitedInList]
    exact ⟨policies, rfl⟩
  | .map r :: rest, policies, h => by
    rw [allRuleDocuments, Interface.isRuleDocument, Bool.and_eq_true] at h
    obtain ⟨hr, hrest⟩ := h
    obtain ⟨hage, hver, _⟩ := isRuleDocument_fields r hr
    rw [rangeRules, visitedInList, visitedInElement, firstInvalidIn_append,
      firstInvalidIn_append]
    rcases appendMaxAge_ruleDocument r policies hage with
      ⟨maxAge, hm, hv, he⟩ | ⟨hvalid, policies1, h1⟩
    · rw [he, hm]
      simp [firstInvalidIn, hv, DecidedBy]
    · have hfa : firstInvalidIn (match r.index "max_age" with
          | .string maxAge => [maxAge]
          | _ => []) = none := by
        cases hm : r.index "max_age" with
        | string maxAge => simp [firstInvalidIn, hvalid maxAge hm]
        | nil => simp [firstInvalidIn]
        | bool _ => simp [firstInvalidIn]
        | float64 _ => simp [firstInvalidIn]
        | slice _ => simp [firstInvalidIn]
        | map _ => simp [firstInvalidIn]
      rw [hfa, h1, Option.none_or]
      obtain ⟨policies2, h2⟩ := appendMaxVersion_ruleDocument r policies1 hver
      simp only [h2]
      by_cases hmode : (r.index "mode").isNil = true
      · rw [if_pos hmode, if_pos hmode]
        have : firstInvalidIn [] = none := rfl
        rw [this, Option.none_or]
        exact rangeRules_decided rest policies2 hrest
      · rw [if_neg hmode, if_neg hmode]
        have ih := getGCPolicyFromJSON_decided r hr
        cases hfi : firstInvalidIn (visitedMaxAges r) with
        | some lit =>
          rw [hfi] at ih
          simp only [DecidedBy] at ih
          rw [ih, Option.or_some]
          simp [DecidedBy]
        | none =>
          rw [hfi] at ih
          obtain ⟨n, hn⟩ := ih
          rw [hn, Option.none_or]
          simp only
          split
          · exact rangeRules_decided rest policies2 hrest
          · exact rangeRules_decided rest (policies2 ++ [n]) hrest
  | .nil :: _, _, h => by simp [allRuleDocuments, Interface.isRuleDocument] at h
  | .bool _ :: _, _, h => by simp [allRuleDocuments, Interface.isRuleDocument] at h
  | .float64 _ :: _, _, h => by simp [allRuleDocuments, Interface.isRuleDocument] at h
  | .string _ :: _, _, h => by simp [allRuleDocuments, Interface.isRuleDocument] at h
  | .slice _ :: _, _, h => by simp [allRuleDocuments, Interface.isRuleDocument] at h
end

/-! ### Consequences for a document with a rules list -/

theorem toLower_union : ToLower GCPolicyModeUnion = "union" := by decide

theorem toLower_intersection : ToLower GCPolicyModeIntersection = "intersection" := by decide

theorem eqString_iff (v : Interface) (s : String) :
    v.eqString s = true ↔ v = .string s := by
  cases v <;> simp [Interface.eqString]

theorem getGCPolicyFromJSON_slice (p : JSONMap) (rules : List Interface)
    (hrules : p.index "rules" = .slice rules) :
    getGCPolicyFromJSON p =
      match rangeRules rules [] with
      | .ok policies =>
        if (p.index "mode").eqString "union" then .ok (.UnionPolicy policies)
        else if (p.index "mode").eqString "intersection" then
          .ok (.IntersectionPolicy policies)
        else
          match policies with
          | [] => .ok .NoGcPolicy
          | first :: _ => .ok first
      | .err e => .err e
      | .panic msg => .panic msg := by
  cases p with
  | mk f =>
    simp only [JSONMap.index] at hrules ⊢
    rw [getGCPolicyFromJSON, hrules, rangeRulesOf]
    simp only [Interface.isNil, toLower_union, toLower_intersection]
    rfl

theorem firstInvalidIn_none (texts : List String)
    (h : ∀ s ∈ texts, validDuration s = true) : firstInvalidIn texts = none := by
  simp only [firstInvalidIn, List.find?_eq_none]
  intro s hs
  simp [h s hs]

theorem visitedMaxAges_slice (p : JSONMap) (rules : List Interface)
    (hrules : p.index "rules" = .slice rules) : visitedMaxAges p = visitedInList rules := by
  cases p with
  | mk f =>
    simp only [JSONMap.index] at hrules
    rw [visitedMaxAges, hrules, visitedInRules]

theorem isRuleDocument_slice (p : JSONMap) (rules : List Interface)
    (hdoc : p.isRuleDocument = true) (hrules : p.index "rules" = .slice rules) :
    allRuleDocuments rules = true := by
  have h := (isRuleDocument_fields p hdoc).2.2
  rw [hrules, Interface.isOptRuleList] at h
  exact h

theorem allRuleDocuments_mem :
    ∀ (xs : List Interface) (raw : Interface), allRuleDocuments xs = true → raw ∈ xs →
      raw.isRuleDocument = true := by
  intro xs
  induction xs with
  | nil => intro r _ h; cases h
  | cons x rest ih =>
    intro r h hr
    rw [allRuleDocuments, Bool.and_eq_true] at h
    rcases List.mem_cons.mp hr with rfl | hr
    · exact h.1
    · exact ih r h.2 hr

theorem visitedInList_mem :
    ∀ (xs : List Interface) (r : JSONMap), .map r ∈ xs →
      (∀ maxAge, r.index "max_age" = .string maxAge → maxAge ∈ visitedInList xs)
      ∧ ((r.index "mode").isNil = false → ∀ s ∈ visitedMaxAges r, s ∈ visitedInList xs) := by
  intro xs
  induction xs with
  | nil => intro r h; cases h
  | cons x rest ih =>
    intro r hr
    rw [visitedInList]
    rcases List.mem_cons.mp hr with rfl | hr
    · rw [visitedInElement]
      refine ⟨?_, ?_⟩
      · intro maxAge hm
        simp [hm]
      · intro hmode s hs
        simp [hmode, hs]
    · obtain ⟨h1, h2⟩ := ih r hr
      exact ⟨fun m hm => List.mem_append_right _ (h1 m hm),
        fun hmode s hs => List.mem_append_right _ (h2 hmode s hs)⟩

theorem rangeRules_of_valid (p : JSONMap) (rules : List Interface)
    (hdoc : p.isRuleDocument = true) (hrules : p.index "rules" = .slice rules)
    (hparse : ∀ s ∈ visitedMaxAges p, validDuration s = true) :
    rangeRules rules [] = .ok (childrenOfRules rules) := by
  have hall := isRuleDocument_slice p rules hdoc hrules
  have hd := rangeRules_decided rules [] hall
  rw [visitedMaxAges_slice p rules hrules] at hparse
  rw [firstInvalidIn_none _ hparse] at hd
  obtain ⟨res, hres⟩ := hd
  rw [hres, rangeRules_eq rules [] res hres]
  simp

theorem children_of_valid (p : JSONMap) (rules : List Interface)
    (hdoc : p.isRuleDocument = true) (hrules : p.index "rules" = .slice rules)
    (hparse : ∀ s ∈ visitedMaxAges p, validDuration s = true)
    (raw : Interface) (hraw : raw ∈ rules) :
    ∃ r, raw = .map r
      ∧ childrenOfRule raw = ageLeafOf r ++ versionLeafOf r ++ nestedPolicyOf r
      ∧ (∀ maxAge, r.index "max_age" = .string maxAge →
          ∃ duration, ParseDuration maxAge = .ok duration
            ∧ ageLeafOf r = [.MaxAgePolicy duration])
      ∧ ((r.index "max_age").isNil = true → ageLeafOf r = [])
      ∧ (∀ version, r.index "max_version" = .float64 version →
          versionLeafOf r = [.MaxVersionsPolicy version.toInt])
      ∧ ((r.index "max_version").isNil = true → versionLeafOf r = [])
      ∧ ((r.index "mode").isNil = false →
          ∃ n, getGCPolicyFromJSON r = .ok n
            ∧ nestedPolicyOf r = if n.isNoGcPolicy then [] else [n])
      ∧ ((r.index "mode").isNil = true → nestedPolicyOf r = []) := by
  have hall := isRuleDocument_slice p rules hdoc hrules
  rw [visitedMaxAges_slice p rules hrules] at hparse
  cases raw with
  | map r =>
    have hr : r.isRuleDocument = true := by
      simpa [Interface.isRuleDocument] using allRuleDocuments_mem rules _ hall hraw
    obtain ⟨hv1, hv2⟩ := visitedInList_mem rules r hraw
    refine ⟨r, rfl, rfl, ?_, ?_, ?_, ?_, ?_, ?_⟩
    · intro maxAge hm
      obtain ⟨d, hd⟩ := validDuration_true maxAge (hparse maxAge (hv1 maxAge hm))
      exact ⟨d, hd, by simp [ageLeafOf, hm, hd]⟩
    · intro hnil
      cases hm : r.index "max_age" <;> simp [hm, Interface.isNil, ageLeafOf] at hnil ⊢
    · intro version hm
      simp [versionLeafOf, hm]
    · intro hnil
      cases hm : r.index "max_version" <;> simp [hm, Interface.isNil, versionLeafOf] at hnil ⊢
    · intro hmode
      have hd := getGCPolicyFromJSON_decided r hr
      rw [firstInvalidIn_none _ (fun s hs => hparse s (hv2 hmode s hs))] at hd
      obtain ⟨n, hn⟩ := hd
      exact ⟨n, hn, by simp [nestedPolicyOf, hmode, hn]⟩
    · intro hmode
      simp [nestedPolicyOf, hmode]
  | nil => simpa [Interface.isRuleDocument] using allRuleDocuments_mem rules _ hall hraw
  | bool _ => simpa [Interface.isRuleDocument] using allRuleDocuments_mem rules _ hall hraw
  | float64 _ => simpa [Interface.isRuleDocument] using allRuleDocuments_mem rules _ hall hraw
  | string _ => simpa [Interface.isRuleDocument] using allRuleDocuments_mem rules _ hall hraw
  | slice _ => simpa [Interface.isRuleDocument] using allRuleDocuments_mem rules _ hall hraw

/-! ## The conversion of a decoded number to `int` -/

theorem value_abs (x : Float64) :
    (x.mant : ℚ) * (2 : ℚ) ^ x.exp = (x.num : ℚ) / (x.den : ℚ) := by
  unfold Float64.num Float64.den
  by_cases h : x.exp < 0
  · simp only [h, if_true]
    obtain ⟨n, hn⟩ : ∃ n : ℕ, x.exp = -(n : ℤ) := ⟨(-x.exp).toNat, by omega⟩
    rw [hn]
    simp [zpow_neg, div_eq_mul_inv]
  · simp only [h, if_false]
    obtain ⟨n, hn⟩ : ∃ n : ℕ, x.exp = (n : ℤ) := ⟨x.exp.toNat, by omega⟩
    rw [hn]
    simp

theorem toInt_eq_truncate (x : Float64)
    (hlo : -(2 ^ 63) ≤ truncate x.value) (hhi : truncate x.value < 2 ^ 63) :
    x.toInt = truncate x.value := by
  have habs := value_abs x
  have hfloor : ⌊(x.num : ℚ) / (x.den : ℚ)⌋ = ((x.num / x.den : ℕ) : ℤ) := by
    rw [Rat.floor_natCast_div_natCast]
    simp
  have hnn : (0 : ℚ) ≤ (x.num : ℚ) / (x.den : ℚ) := by positivity
  have key : ((if x.neg then -((x.num / x.den : ℕ) : ℤ) else ((x.num / x.den : ℕ) : ℤ)) : ℤ)
      = truncate x.value := by
    unfold truncate Float64.value
    cases hneg : x.neg with
    | false =>
      simp only [Bool.false_eq_true, if_false, one_mul]
      rw [habs, if_pos hnn, hfloor]
    | true =>
      simp only [if_true, neg_mul, one_mul]
      rw [habs]
      by_cases hz : (0 : ℚ) ≤ -((x.num : ℚ) / (x.den : ℚ))
      · have h0 : (x.num : ℚ) / (x.den : ℚ) = 0 := le_antisymm (by linarith) hnn
        rw [if_pos hz]
        rw [h0] at hfloor
        simp only [Int.floor_zero] at hfloor
        rw [h0, ← hfloor]
        simp
      · rw [if_neg hz, Int.ceil_neg, hfloor]
  unfold Float64.toInt
  simp only [key]
  rw [if_pos ⟨hlo, hhi⟩]

theorem truncate_intCast (k : Int) : truncate (k : ℚ) = k := by
  unfold truncate
  split
  · exact Int.floor_intCast k
  · exact Int.ceil_intCast k

theorem toInt_of_integer (x : Float64) (k : Int) (hk : x.value = (k : ℚ))
    (hlo : -(2 ^ 63) ≤ k) (hhi : k < 2 ^ 63) : x.toInt = k := by
  have ht : truncate x.value = k := by rw [hk, truncate_intCast]
  rw [toInt_eq_truncate x (by rw [ht]; exact hlo) (by rw [ht]; exact hhi), ht]

/-! ## The claims about rule documents -/

/-- C4 (amended).  For every rule document that has a rules list and whose own mode
is `union` (resp. `intersection`), and in which every visited `max_age` parses,
`getGCPolicyFromJSON` returns the union (resp. intersection) combinator over the
in-order concatenation, over the elements of `rules`, of: the age leaf of the
parsed `max_age` if the element carries `max_age`, then the version leaf of
`int(max_version)` if it carries `max_version`, then the lowering of the element if
it carries `mode` and that lowering is not `NoGcPolicy`.  `int(max_version)` is the
number truncated toward zero whenever the truncation lies in the `int64` range, so
it is `max_version` itself when that is an integer of the range. -/
theorem getGCPolicyFromJSON_combinator (p : JSONMap) (rules : List Interface)
    (hdoc : p.isRuleDocument = true) (hrules : p.index "rules" = .slice rules)
    (hparse : ∀ s ∈ visitedMaxAges p, validDuration s = true) :
    (p.index "mode" = .string "union" →
        getGCPolicyFromJSON p = .ok (.UnionPolicy (rules.flatMap childrenOfRule)))
    ∧ (p.index "mode" = .string "intersection" →
        getGCPolicyFromJSON p = .ok (.IntersectionPolicy (rules.flatMap childrenOfRule)))
    ∧ ∀ raw ∈ rules, ∃ r, raw = .map r
        ∧ childrenOfRule raw = ageLeafOf r ++ versionLeafOf r ++ nestedPolicyOf r
        ∧ (∀ maxAge, r.index "max_age" = .string maxAge →
            ∃ duration, ParseDuration maxAge = .ok duration
              ∧ ageLeafOf r = [.MaxAgePolicy duration])
        ∧ ((r.index "max_age").isNil = true → ageLeafOf r = [])
        ∧ (∀ version, r.index "max_version" = .float64 version →
            versionLeafOf r = [.MaxVersionsPolicy version.toInt]
            ∧ (-(2 ^ 63) ≤ truncate version.value → truncate version.value < 2 ^ 63 →
                version.toInt = truncate version.value)
            ∧ (∀ k : Int, version.value = (k : ℚ) → -(2 ^ 63) ≤ k → k < 2 ^ 63 →
                versionLeafOf r = [.MaxVersionsPolicy k]))
        ∧ ((r.index "max_version").isNil = true → versionLeafOf r = [])
        ∧ ((r.index "mode").isNil = false →
            ∃ n, getGCPolicyFromJSON r = .ok n
              ∧ nestedPolicyOf r = if n.isNoGcPolicy then [] else [n])
        ∧ ((r.index "mode").isNil = true → nestedPolicyOf r = []) := by
  have hloop := rangeRules_of_valid p rules hdoc hrules hparse
  rw [childrenOfRules] at hloop
  refine ⟨?_, ?_, ?_⟩
  · intro hmode
    rw [getGCPolicyFromJSON_slice p rules hrules, hloop, hmode]
    rfl
  · intro hmode
    rw [getGCPolicyFromJSON_slice p rules hrules, hloop, hmode]
    rfl
  · intro raw hraw
    obtain ⟨r, h1, h2, h3, h4, h5, h6, h7, h8⟩ :=
      children_of_valid p rules hdoc hrules hparse raw hraw
    refine ⟨r, h1, h2, h3, h4, ?_, h6, h7, h8⟩
    intro version hv
    refine ⟨h5 version hv, toInt_eq_truncate version, ?_⟩
    intro k hk hlo hhi
    rw [h5 version hv, toInt_of_integer version k hk hlo hhi]

/-- Witness of C4: `{"rules":[{"max_age":"1h"},{"max_version":1}],"mode":"union"}`
lowers to the union of the age leaf of one hour and the version leaf of 1. -/
theorem getGCPolicyFromJSON_combinator_witness :
    getGCPolicyFromJSON unionDocument
      = .ok (.UnionPolicy [.MaxAgePolicy 3600000000000, .MaxVersionsPolicy 1]) :=
  (getGCPolicyFromJSON_combinator unionDocument
    [.map (.ofList [("max_age", .string "1h")]), .map (.ofList [("max_version", .float64 one)])]
    (by rfl) (by rfl) (by decide)).1 (by rfl)

/-- Counterexample to C4 as stated.  For `max_version` 2.5 the version leaf holds 2,
not the number of the document; and for `max_version` 2^70, which no `int` holds,
it holds the smallest `int64`. -/
theorem getGCPolicyFromJSON_version_counterexample :
    getGCPolicyFromJSON (versionDocument twoAndAHalf)
      = .ok (.UnionPolicy [.MaxVersionsPolicy 2])
    ∧ twoAndAHalf.value = 5 / 2
    ∧ getGCPolicyFromJSON (versionDocument twoPow70)
      = .ok (.UnionPolicy [.MaxVersionsPolicy (-9223372036854775808)])
    ∧ twoPow70.value = 1180591620717411303424 := by
  refine ⟨by rfl, ?_, by rfl, ?_⟩
  · norm_num [Float64.value, twoAndAHalf]
  · norm_num [Float64.value, twoPow70]

/-- C5.  For every rule document that has a rules list and whose own mode is
neither `union` nor `intersection` (absent or anything else), and in which every
visited `max_age` parses, `getGCPolicyFromJSON` returns `NoGcPolicy` if no child
was collected from the rules, and otherwise exactly the first collected child. -/
theorem getGCPolicyFromJSON_no_mode (p : JSONMap) (rules : List Interface)
    (hdoc : p.isRuleDocument = true) (hrules : p.index "rules" = .slice rules)
    (hparse : ∀ s ∈ visitedMaxAges p, validDuration s = true)
    (hunion : p.index "mode" ≠ .string "union")
    (hinter : p.index "mode" ≠ .string "intersection") :
    (rules.flatMap childrenOfRule = [] → getGCPolicyFromJSON p = .ok .NoGcPolicy)
    ∧ (∀ first later, rules.flatMap childrenOfRule = first :: later →
        getGCPolicyFromJSON p = .ok first) := by
  have hloop := rangeRules_of_valid p rules hdoc hrules hparse
  rw [childrenOfRules] at hloop
  have h1 : (p.index "mode").eqString "union" = false := by
    rw [← Bool.not_eq_true, eqString_iff]; exact hunion
  have h2 : (p.index "mode").eqString "intersection" = false := by
    rw [← Bool.not_eq_true, eqString_iff]; exact hinter
  rw [getGCPolicyFromJSON_slice p rules hrules, hloop]
  simp only [h1, h2]
  refine ⟨?_, ?_⟩
  · intro h
    rw [h]
    rfl
  · intro first later h
    rw [h]
    rfl

/-- Witness of C5: `{"rules":[{"max_age":"1h"},{"max_version":1}]}` lowers to the
age leaf of one hour alone. -/
theorem getGCPolicyFromJSON_no_mode_witness :
    getGCPolicyFromJSON noModeDocument = .ok (.MaxAgePolicy 3600000000000) :=
  (getGCPolicyFromJSON_no_mode noModeDocument
    [.map (.ofList [("max_age", .string "1h")]), .map (.ofList [("max_version", .float64 one)])]
    (by rfl) (by rfl) (by decide) (by simp [noModeDocument, JSONMap.ofList, JSONMap.index])
    (by simp [noModeDocument, JSONMap.ofList, JSONMap.index])).2
    (.MaxAgePolicy 3600000000000) [.MaxVersionsPolicy 1] (by rfl)

theorem noNoPolicyAmong_structuredChildren (d : ResourceData) :
    noNoPolicyAmong (structuredChildren d) = true := by
  unfold structuredChildren
  rw [noNoPolicyAmong_append]
  have h1 : noNoPolicyAmong (match d.max_age with
      | [] => []
      | ma :: _ =>
        match getMaxAgeDuration ma with
        | .ok dur => [GCPolicy.MaxAgePolicy dur]
        | .error _ => []) = true := by
    repeat' split
    all_goals rfl
  have h2 : noNoPolicyAmong (match d.max_version with
      | [] => []
      | mv :: _ => [GCPolicy.MaxVersionsPolicy mv.number]) = true := by
    repeat' split
    all_goals rfl
  rw [h1, h2]
  rfl

theorem noNoPolicy_headD (policies : List GCPolicy) (h : noNoPolicyAmong policies = true) :
    (policies.headD .NoGcPolicy).noNoPolicyChild = true := by
  cases policies with
  | nil => rfl
  | cons c cs =>
    simp only [noNoPolicyAmong, Bool.and_eq_true] at h
    exact h.1.2

/-- C6.  For every configuration on which `generateBigtableGCPolicy` succeeds, in
the structured form or in the `gc_rules` form and at any nesting depth of the rule
document, no combinator anywhere in the returned policy tree has `NoGcPolicy`
among its children. -/
theorem generate_no_NoGcPolicy_child (unmarshal : String → Except String JSONMap)
    (d : ResourceData) (policy : GCPolicy)
    (h : generateBigtableGCPolicy unmarshal d = .ok policy) :
    policy.noNoPolicyChild = true := by
  by_cases ha : d.ambiguous
  · rw [generate_ambiguous unmarshal d ha] at h
    cases h
  · by_cases hg : d.gc_rules = ""
    · by_cases hsome : d.max_age ≠ [] ∨ d.max_version ≠ []
      · have hc := noNoPolicyAmong_structuredChildren d
        rw [generate_structured unmarshal d hg hsome ha] at h
        repeat' split at h
        all_goals cases h
        all_goals first
          | exact noNoPolicy_headD _ hc
          | simpa [GCPolicy.noNoPolicyChild] using hc
      · have h1 : d.max_age = [] := by
          by_contra hh; exact hsome (Or.inl hh)
        have h2 : d.max_version = [] := by
          by_contra hh; exact hsome (Or.inr hh)
        have : generateBigtableGCPolicy unmarshal d = .ok .NoGcPolicy := by
          simp [generateBigtableGCPolicy, h1, h2, hg]
        rw [this] at h
        cases h
        rfl
    · rw [generate_gcRules unmarshal d hg ha, lowerText] at h
      split at h
      · cases h
      · exact getGCPolicyFromJSON_noNoPolicy _ _ h

/-- Witness of C6: a nested document whose inner rule lowers to `NoGcPolicy`; the
union returned holds the age leaf only. -/
theorem generate_no_NoGcPolicy_child_witness :
    generateBigtableGCPolicy
        (unmarshalOnly "doc" (.ofList [("rules", .slice [.map (.ofList
          [("max_age", .string "1h"), ("mode", .string "union")])]),
          ("mode", .string "union")]))
        ⟨"", [], [], "doc"⟩
      = .ok (.UnionPolicy [.MaxAgePolicy 3600000000000])
    ∧ GCPolicy.noNoPolicyChild (.UnionPolicy [.MaxAgePolicy 3600000000000]) = true :=
  ⟨by rfl, generate_no_NoGcPolicy_child
    (unmarshalOnly "doc" (.ofList [("rules", .slice [.map (.ofList
      [("max_age", .string "1h"), ("mode", .string "union")])]),
      ("mode", .string "union")]))
    ⟨"", [], [], "doc"⟩ (.UnionPolicy [.MaxAgePolicy 3600000000000]) (by rfl)⟩

/-- C8 (amended).  For every rule document whose rules list contains an element
carrying a `max_age` text that is not a valid duration literal,
`getGCPolicyFromJSON` fails with the error of line 383 and returns no policy, the
message being `invalid duration string: ` followed by the first visited `max_age`,
in traversal order, that fails to parse; `generateBigtableGCPolicy` fails the same
way on a `gc_rules` text that decodes to the document, unless both `max_age` and
`max_version` are present with an empty `mode`, in which case it fails with the
error of line 332 instead; and in the loop an error of the nested lowering of an
element is returned unchanged. -/
theorem getGCPolicyFromJSON_invalid_duration (unmarshal : String → Except String JSONMap)
    (p : JSONMap) (rules : List Interface) (r : JSONMap) (maxAge : String)
    (hdoc : p.isRuleDocument = true) (hrules : p.index "rules" = .slice rules)
    (hr : Interface.map r ∈ rules) (hage : r.index "max_age" = .string maxAge)
    (hbad : validDuration maxAge = false) :
    (∃ lit, firstInvalidMaxAge p = some lit
        ∧ validDuration lit = false
        ∧ (∃ before after, visitedMaxAges p = before ++ lit :: after
            ∧ ∀ s ∈ before, validDuration s = true)
        ∧ getGCPolicyFromJSON p = .err ("invalid duration string: " ++ lit)
        ∧ (∀ d : ResourceData, d.gc_rules ≠ "" → ¬ d.ambiguous →
            unmarshal d.gc_rules = .ok p →
            generateBigtableGCPolicy unmarshal d
              = .err ("invalid duration string: " ++ lit)))
    ∧ (∀ (r2 : JSONMap) (rest : List Interface) (policies policies1 policies2 : List GCPolicy)
        (e : String),
        appendMaxAge r2 policies = .ok policies1 →
        appendMaxVersion r2 policies1 = .ok policies2 →
        (r2.index "mode").isNil = false → getGCPolicyFromJSON r2 = .err e →
        rangeRules (.map r2 :: rest) policies = .err e)
    ∧ (∀ d : ResourceData, d.ambiguous →
        generateBigtableGCPolicy unmarshal d = .err modeEmptyError) := by
  refine ⟨?_, ?_, generate_ambiguous unmarshal⟩
  · have hmem : maxAge ∈ visitedMaxAges p := by
      rw [visitedMaxAges_slice p rules hrules]
      exact (visitedInList_mem rules r hr).1 maxAge hage
    have hd := getGCPolicyFromJSON_decided p hdoc
    cases hfi : firstInvalidIn (visitedMaxAges p) with
    | none =>
      simp only [firstInvalidIn, List.find?_eq_none] at hfi
      have := hfi maxAge hmem
      simp [hbad] at this
    | some lit =>
      rw [hfi] at hd
      simp only [DecidedBy, invalidDurationError] at hd
      have hsome := hfi
      simp only [firstInvalidIn, List.find?_eq_some] at hsome
      obtain ⟨hlit, before, after, hsplit, hbefore⟩ := hsome
      refine ⟨lit, hfi, by simpa using hlit, ⟨before, after, hsplit, ?_⟩, hd, ?_⟩
      · intro s hs
        simpa using hbefore s hs
      · intro d hg ha hu
        rw [generate_gcRules unmarshal d hg ha, lowerText, hu]
        exact hd
  · intro r2 rest policies policies1 policies2 e h1 h2 hmode he
    rw [rangeRules]
    simp only [h1, h2, hmode, he]
    rfl

/-- Witness of C8: the element `{"max_age":"notaduration"}` gives the error
`invalid duration string: notaduration`. -/
theorem getGCPolicyFromJSON_invalid_duration_witness :
    getGCPolicyFromJSON invalidDocument = .err "invalid duration string: notaduration" := by
  obtain ⟨lit, h1, _, _, h2, _⟩ :=
    (getGCPolicyFromJSON_invalid_duration (unmarshalOnly "doc" invalidDocument)
      invalidDocument [.map (.ofList [("max_age", .string "notaduration")])]
      (.ofList [("max_age", .string "notaduration")]) "notaduration"
      (by rfl) (by rfl) (by simp) (by rfl) (by rfl)).1
  have h3 : firstInvalidMaxAge invalidDocument = some "notaduration" := by rfl
  rw [h3] at h1
  cases h1
  exact h2

/-- Counterexample to C8 as stated.  On a `gc_rules` text that decodes to
`{"rules":[{"max_age":"notaduration"}]}`, the configuration that also has a
`max_age` block, a `max_version` block and an empty `mode` fails with the error of
line 332, whose message does not contain the malformed literal; the document itself
lowers to the error naming it. -/
theorem generate_invalid_duration_counterexample :
    generateBigtableGCPolicy (unmarshalOnly "doc" invalidDocument)
        ⟨"", [⟨1, ""⟩], [⟨1⟩], "doc"⟩
      = .err "if multiple policies are set, mode can't be empty"
    ∧ containsText "if multiple policies are set, mode can't be empty" "notaduration"
      = false
    ∧ getGCPolicyFromJSON invalidDocument = .err "invalid duration string: notaduration"
    ∧ containsText "invalid duration string: notaduration" "notaduration" = true := by
  refine ⟨by rfl, by decide, by rfl, by decide⟩

/-- C10 (the code at failing inputs).  On a decoded JSON object
`getGCPolicyFromJSON` stops with a run-time panic, returning neither a policy nor
an error, when `rules` is not an array, when an element of `rules` is not an
object, when `max_age` is not a string and when `max_version` is not a number; and
so does `generateBigtableGCPolicy` on a `gc_rules` text that decodes to such an
object. -/
theorem getGCPolicyFromJSON_panics :
    getGCPolicyFromJSON rulesNotArrayDocument
      = .panic "interface conversion: interface {} is not []interface {}"
    ∧ getGCPolicyFromJSON (.ofList [("rules", .slice [.float64 one])])
      = .panic "interface conversion: interface {} is not map[string]interface {}"
    ∧ getGCPolicyFromJSON
        (.ofList [("rules", .slice [.map (.ofList [("max_age", .float64 one)])])])
      = .panic "interface conversion: interface {} is not string"
    ∧ getGCPolicyFromJSON
        (.ofList [("rules", .slice [.map (.ofList [("max_version", .string "1")])])])
      = .panic "interface conversion: interface {} is not float64"
    ∧ generateBigtableGCPolicy
        (unmarshalOnly "\x7b\"rules\":1\x7d" rulesNotArrayDocument)
        ⟨"", [], [], "\x7b\"rules\":1\x7d"⟩
      = .panic "interface conversion: interface {} is not []interface {}" := by
  refine ⟨by rfl, by rfl, by rfl, by rfl, by rfl⟩

/-- A rule document never makes `getGCPolicyFromJSON` panic: the result is a
policy, or the error of line 383 for the first visited `max_age` that fails to
parse. -/
theorem getGCPolicyFromJSON_ruleDocument_total (p : JSONMap)
    (hdoc : p.isRuleDocument = true) :
    (firstInvalidMaxAge p = none → ∃ policy, getGCPolicyFromJSON p = .ok policy)
    ∧ (∀ lit, firstInvalidMaxAge p = some lit →
        getGCPolicyFromJSON p = .err ("invalid duration string: " ++ lit))
    ∧ ∀ msg, getGCPolicyFromJSON p ≠ .panic msg := by
  have hd := getGCPolicyFromJSON_decided p hdoc
  unfold firstInvalidMaxAge
  cases hfi : firstInvalidIn (visitedMaxAges p) with
  | none =>
    rw [hfi] at hd
    obtain ⟨v, hv⟩ := hd
    refine ⟨fun _ => ⟨v, hv⟩, fun lit h => (by cases h), fun msg h => ?_⟩
    rw [hv] at h
    cases h
  | some lit0 =>
    rw [hfi] at hd
    simp only [DecidedBy, invalidDurationError] at hd
    refine ⟨fun h => (by cases h), fun lit h => ?_, fun msg h => ?_⟩
    · cases h
      exact hd
    · rw [hd] at h
      cases h

/-- Witness: the union document of the specification is a rule document with no
invalid `max_age`, and it lowers to a policy. -/
theorem getGCPolicyFromJSON_ruleDocument_total_witness :
    ∃ policy, getGCPolicyFromJSON unionDocument = .ok policy :=
  (getGCPolicyFromJSON_ruleDocument_total unionDocument (by rfl)).1 (by rfl)

/-- With neither `max_age` nor `max_version` present and `gc_rules` empty, the
result is `NoGcPolicy`, whatever `mode` is. -/
theorem generate_nothing_set (unmarshal : String → Except String JSONMap) (mode : String) :
    generateBigtableGCPolicy unmarshal ⟨mode, [], [], ""⟩ = .ok .NoGcPolicy := by
  simp [generateBigtableGCPolicy]

end BigtableGCPolicy
